import Mathlib

/-!
# Sidewinder PCIe reference: a shallow embedding

The three translation units of the repository are embedded as pure Lean
functions:

* `FindContig.cpp`  : `parseKMG`, `findContig`
* `PciDevice.cpp`   : `PciDevice.close`, `PciDevice.mapResources`,
                      `PciDevice.getResourceList`, `getIntegerFromFile`,
                      `PciDevice.open`
* `measure_bw.cpp`  : `measureReadBandwidth`, `measureWriteBandwidth`

Conventions.

* A C string (`const char*`, or the buffer `std::string::c_str()` points to)
  is a `List Char` read as memory: its content ends at the first NUL, or at
  the end of the list, where the terminator stands.
* Machine integers are `Nat` or `Int` with explicit reduction: `toU64` is the
  conversion to `uint64_t`, `wrapI64` the two's complement wrap of `int64_t`
  (what the x86-64 build does on signed overflow), `long`, `long long`,
  `off_t` and `size_t` are 64 bits wide (LP64).
* The operating system and the device are explicit state: `Kernel` for
  `/dev/mem`, `mmap` and `munmap`, `SimEngine` for the register file of the
  bandwidth engine.
-/

deriving instance DecidableEq for Except

namespace Sidewinder

/-! ## C library -/

/-- The NUL character, terminator of a C string. -/
def NUL : Char := Char.ofNat 0

/-- The test `*ptr >= '0' && *ptr <= '9'` on the character codes, 48 for `0`
and 57 for `9`; also C `isdigit`. -/
def isDigit (c : Char) : Bool :=
  decide (48 ≤ c.toNat) && decide (c.toNat ≤ 57)

/-- C `isspace` in the "C" locale: space, `\t`, `\n`, `\v`, `\f`, `\r`. -/
def isspace (c : Char) : Bool :=
  c == ' ' || (decide (9 ≤ c.toNat) && decide (c.toNat ≤ 13))

/-- The value of `c` as a digit of `strtol`: `0`-`9`, then letters of either
case from 10 on; 36 (no digit of any base) for every other character. -/
def digitValue (c : Char) : Nat :=
  if isDigit c then c.toNat - 48
  else if decide (97 ≤ c.toNat) && decide (c.toNat ≤ 122) then c.toNat - 97 + 10
  else if decide (65 ≤ c.toNat) && decide (c.toNat ≤ 90) then c.toNat - 65 + 10
  else 36

/-- The digit loop of `strtol`: folds the longest prefix of `s` made of digits
of `base` into the accumulator. -/
def accumDigits (base : Nat) : Nat → List Char → Nat
  | acc, [] => acc
  | acc, c :: cs =>
    if digitValue c < base then accumDigits base (acc * base + digitValue c) cs else acc

/-- The base `strtol` settles on when called with base 0, and the text its
digit loop starts at: a `0x` or `0X` that a hexadecimal digit follows selects
16 and is skipped, another leading `0` selects 8, anything else 10. -/
def detectBase (s : List Char) : Nat × List Char :=
  match s with
  | c0 :: c1 :: c2 :: rest =>
    if c0 = '0' then
      if (c1 = 'x' ∨ c1 = 'X') ∧ digitValue c2 < 16 then (16, c2 :: rest) else (8, s)
    else (10, s)
  | c0 :: _ => if c0 = '0' then (8, s) else (10, s)
  | [] => (10, s)

/-- The sign `strtol` reads after the white space, and the text after it. -/
def readSign (s : List Char) : Bool × List Char :=
  match s with
  | c :: rest => if c = '-' then (true, rest) else if c = '+' then (false, rest) else (false, s)
  | [] => (false, s)

/-- C `strtol(s, 0, 0)`, as every call of the repository passes base 0 and no
end pointer: skips white space, reads a sign, detects the base, folds the
digits and saturates at `LONG_MIN` and `LONG_MAX`.  A text with no digits
gives 0. -/
def strtol (s : List Char) : Int :=
  let (neg, s1) := readSign (s.dropWhile isspace)
  let (base, s2) := detectBase s1
  let v := accumDigits base 0 s2
  if neg then (if 2 ^ 63 < v then -(2 ^ 63 : Int) else -(v : Int))
  else (if 2 ^ 63 - 1 < v then (2 ^ 63 - 1 : Int) else (v : Int))

/-- C `strtoll(s, 0, 0)`: `long long` and `long` are both 64 bits wide. -/
def strtoll (s : List Char) : Int := strtol s

/-- C `strchr(s, c)`: the text from the first `c` on, `none` for the null
pointer.  The terminator counts as part of the string, so a NUL `c` finds
it. -/
def strchr : List Char → Char → Option (List Char)
  | [], c => if c = NUL then some [] else none
  | x :: xs, c => if x = c then some (x :: xs) else if x = NUL then none else strchr xs c

/-- C `strstr(s, needle)` for a needle without NUL: the text from the first
occurrence of `needle` on, `none` for the null pointer. -/
def strstr : List Char → List Char → Option (List Char)
  | [], needle => if needle.isEmpty then some [] else none
  | x :: xs, needle =>
    if needle.isPrefixOf (x :: xs) then some (x :: xs)
    else if x = NUL then none else strstr xs needle

/-- The character `*ptr`: the head of the text, the terminator at its end. -/
def deref (ptr : List Char) : Char := ptr.headD NUL

/-- Conversion of a signed value to `uint64_t`. -/
def toU64 (x : Int) : Nat := (x % 2 ^ 64).toNat

/-- The value an `int64_t` computation keeps of the exact result `x`. -/
def wrapI64 (x : Int) : Int := (x + 2 ^ 63) % 2 ^ 64 - 2 ^ 63

/-! ## FindContig.cpp -/

/-- `parseKMG(delimeter, ptr)` of FindContig.cpp.  The step `++ptr` leaves
the string only when `strchr` has found the terminator, that is for a NUL
`delimeter`, which no caller passes. -/
def parseKMG (delimeter : Char) (ptr : List Char) : Nat :=
  match strchr ptr delimeter with
  | none => 0
  | some p =>
    -- ++ptr
    let ptr1 := p.tail
    -- int64_t value = strtol(ptr, 0, 0)
    let value := strtol ptr1
    -- while (*ptr >= '0' && *ptr <= '9') ++ptr
    let ptr2 := ptr1.dropWhile isDigit
    if deref ptr2 = 'K' then toU64 (wrapI64 (value * 1024))
    else if deref ptr2 = 'M' then toU64 (wrapI64 (wrapI64 (value * 1024) * 1024))
    else if deref ptr2 = 'G' then
      toU64 (wrapI64 (wrapI64 (wrapI64 (value * 1024) * 1024) * 1024))
    else 0

/-- The `runtime_error`s of `findContig`, named as the error kinds of the
specification: "Can't open /proc/cmdline", "Malformed /proc/cmdline",
"No reserved contiguous buffer found!" and "Reserved buffer size of 0x%lx is
too small!" with the size it prints. -/
inductive ContigError where
  | ConfigUnreadable
  | MalformedConfig
  | NoReservedBuffer
  | BufferTooSmall (size : Nat)
  deriving DecidableEq, Repr

/-- `ONE_GIG` of `findContig`. -/
def ONE_GIG : Nat := 1024 * 1024 * 1024

/-- `getline(file, line)` on a freshly opened stream: the characters before
the first newline. -/
def getline (contents : List Char) : List Char :=
  contents.takeWhile (fun c => c != Char.ofNat 10)

/-- `findContig()` of FindContig.cpp.  `file` is the content of
`/proc/cmdline`, `none` when the file cannot be opened. -/
def findContig (file : Option (List Char)) : Except ContigError Nat :=
  match file with
  | none => .error .ConfigUnreadable
  | some contents =>
    let line := getline contents
    match strstr line "memmap=".toList with
    | none => .error .MalformedConfig
    | some p =>
      let size := parseKMG '=' p
      let physAddr := parseKMG '$' p
      if physAddr = 0 then .error .NoReservedBuffer
      else if size < ONE_GIG then .error (.BufferTooSmall size)
      else .ok physAddr

/-! ## PciDevice.cpp -/

/-- Modelled from the spec: `resource_t` is declared in PciDevice.h, which is
not among the sources.  The fields are those the code names, in the order of
the initializer `{0, size, starting_address}` of `getResourceList`:
`baseAddr` (the optional `mappedBase` of the specification, 0 for the null
pointer), `size` and `physAddr` (both u64 in the specification). -/
structure resource_t where
  baseAddr : Nat
  size : Nat
  physAddr : Nat
  deriving DecidableEq, Repr

/-- The `runtime_error`s of PciDevice.cpp, named as the error kinds of the
specification: "No PCI device found for vendor=0x%X, device=0x%X",
"Must be root.  Use sudo.", "mmap failed on 0x%lx for size 0x%lx",
"Can't open %s" and "Device contains no memory-mappable resources". -/
inductive PciError where
  | DeviceNotFound (vendorID deviceID : Int)
  | PermissionDenied
  | MappingFailed (address size : Nat)
  | MalformedResourceFile
  | NoMappableResources
  deriving DecidableEq, Repr

/-- The system calls of PciDevice.cpp, as the kernel sees them. -/
inductive Syscall where
  | openDevMem (result : Int)
  | closeFd (fd : Int)
  | mmap (length : Nat) (fd : Int) (offset : Nat) (result : Option Nat)
  | munmap (addr length : Nat)
  deriving DecidableEq, Repr

/-- A mapping in place: the address `mmap` returned and the length mapped. -/
structure Mapping where
  addr : Nat
  length : Nat
  deriving DecidableEq, Repr

/-- The part of the operating system PciDevice.cpp talks to. -/
structure Kernel where
  /-- What `::open("/dev/mem", O_RDWR | O_SYNC)` returns: a descriptor, or -1. -/
  devMem : Int
  /-- The replies to the coming `mmap` calls, in order: the address of the new
  mapping, or `none` for `MAP_FAILED`.  An exhausted script replies
  `MAP_FAILED`. -/
  mmapScript : List (Option Nat)
  /-- The mappings in place. -/
  live : List Mapping
  /-- Every system call made so far, oldest first. -/
  trace : List Syscall

/-- The call `::open("/dev/mem", O_RDWR | O_SYNC)`. -/
def Kernel.openDevMem (k : Kernel) : Int × Kernel :=
  (k.devMem, { k with trace := k.trace ++ [Syscall.openDevMem k.devMem] })

/-- The call `::close(fd)`. -/
def Kernel.closeFd (k : Kernel) (fd : Int) : Kernel :=
  { k with trace := k.trace ++ [Syscall.closeFd fd] }

/-- The call `::mmap(0, length, PROT_READ | PROT_WRITE, MAP_SHARED, fd, offset)`. -/
def Kernel.mmap (k : Kernel) (length : Nat) (fd : Int) (offset : Nat) : Option Nat × Kernel :=
  match k.mmapScript with
  | some p :: script =>
    (some p, { k with mmapScript := script, live := k.live ++ [{ addr := p, length := length }],
                      trace := k.trace ++ [Syscall.mmap length fd offset (some p)] })
  | none :: script =>
    (none, { k with mmapScript := script,
                    trace := k.trace ++ [Syscall.mmap length fd offset none] })
  | [] => (none, { k with trace := k.trace ++ [Syscall.mmap length fd offset none] })

/-- The call `munmap(addr, length)`. -/
def Kernel.munmap (k : Kernel) (addr length : Nat) : Kernel :=
  { k with live := k.live.erase { addr := addr, length := length },
           trace := k.trace ++ [Syscall.munmap addr length] }

/-- The state of a `PciDevice` object: its vector `resource_`. -/
structure PciDevice where
  resource_ : List resource_t
  deriving DecidableEq, Repr

/-- The loop of `PciDevice::close`: unmaps every resource whose `baseAddr` is
not null. -/
def unmapAll (k : Kernel) : List resource_t → Kernel
  | [] => k
  | resource :: rest =>
    if resource.baseAddr ≠ 0 then unmapAll (k.munmap resource.baseAddr resource.size) rest
    else unmapAll k rest

/-- `PciDevice::close()` of PciDevice.cpp. -/
def PciDevice.close (self : PciDevice) (k : Kernel) : PciDevice × Kernel :=
  ({ resource_ := [] }, unmapAll k self.resource_)

/-- The loop of `PciDevice::mapResources` over `resource_`, which is `done`
(the entries already visited, `baseAddr` filled in) followed by `todo`.  When
`mmap` fails the loop calls `close()` on the whole vector and throws with the
`physAddr` and `size` of `bar`, read through the reference `bar` after
`close()` has cleared the vector: the cleared vector keeps its storage, so the
read yields the entry as it was. -/
def mapLoop (fd : Int) : List resource_t → List resource_t → Kernel →
    Except PciError Unit × PciDevice × Kernel
  | done, [], k => (.ok (), { resource_ := done }, k)
  | done, bar :: rest, k =>
    match k.mmap bar.size fd bar.physAddr with
    | (none, k1) =>
      let (dev, k2) := PciDevice.close { resource_ := done ++ bar :: rest } k1
      (.error (.MappingFailed bar.physAddr bar.size), dev, k2)
    | (some ptr, k1) => mapLoop fd (done ++ [{ bar with baseAddr := ptr }]) rest k1

/-- The destructor of `FileDes`: closes the descriptor unless it is -1. -/
def FileDes.destroy (fd : Int) (k : Kernel) : Kernel :=
  if fd ≠ -1 then k.closeFd fd else k

/-- `PciDevice::mapResources()` of PciDevice.cpp: the outcome, the object and
the kernel after the call.  The local `FileDes fd` is destroyed on both the
normal and the throwing exits. -/
def PciDevice.mapResources (self : PciDevice) (k : Kernel) :
    Except PciError Unit × PciDevice × Kernel :=
  let (fd, k1) := k.openDevMem
  if fd < 0 then
    let (dev, k2) := self.close k1
    (.error .PermissionDenied, dev, FileDes.destroy fd k2)
  else
    let (outcome, dev, k2) := mapLoop fd [] self.resource_ k1
    (outcome, dev, FileDes.destroy fd k2)

/-- The loop `while (getline(file, line))` of `getResourceList` over the lines
of the file, `result` being the vector built so far.  `none` stands for the
undefined behaviour of `strtoll(p2, 0, 0)` when the line holds no space and
`p2` is the null pointer. -/
def resourceLoop : List (List Char) → List resource_t → Option (List resource_t)
  | [], result => some result
  | line :: more, result =>
    let p1 := line
    match strchr p1 ' ' with
    | none => none
    | some p2 =>
      let starting_address := strtoll p1
      let ending_address := strtoll p2
      if starting_address = 0 then resourceLoop more result
      else
        let size := toU64 (wrapI64 (wrapI64 (ending_address - starting_address) + 1))
        resourceLoop more
          (result ++ [{ baseAddr := 0, size := size, physAddr := toU64 starting_address }])

/-- `PciDevice::getResourceList(deviceDir)` of PciDevice.cpp.  `file` is the
content of `deviceDir + "/resource"` as the lines `getline` returns, `none`
when the file cannot be opened. -/
def PciDevice.getResourceList (file : Option (List (List Char))) :
    Option (Except PciError (List resource_t)) :=
  match file with
  | none => some (.error .MalformedResourceFile)
  | some lines =>
    match resourceLoop lines [] with
    | none => none
    | some result =>
      if result.isEmpty then some (.error .NoMappableResources) else some (.ok result)

/-- What `PciDevice::open` can throw: the `runtime_error`s of PciDevice.cpp,
the two exceptions of `std::stoi` (no conversion, value out of the range of
`int`) and the `filesystem_error` of `directory_iterator`. -/
inductive Thrown where
  | runtime_error (e : PciError)
  | invalid_argument
  | out_of_range
  | filesystem_error
  deriving DecidableEq, Repr

/-- Whether `strtol(s, &end, 0)` converts anything, that is leaves `end` past
`s`: after the white space, the sign and the `0x` it skips, the text begins
with a digit of the base. -/
def strtolConverts (s : List Char) : Bool :=
  let (_, s1) := readSign (s.dropWhile isspace)
  let (base, s2) := detectBase s1
  match s2 with
  | [] => false
  | c :: _ => decide (digitValue c < base)

/-- C++ `std::stoi(str, 0, 0)`: `strtol` with base 0, `invalid_argument` when
nothing is converted, `out_of_range` when the value is not an `int`. -/
def stoi (str : List Char) : Except Thrown Int :=
  if strtolConverts str = false then .error .invalid_argument
  else
    let value := strtol str
    if value < -(2 ^ 31 : Int) ∨ (2 ^ 31 - 1 : Int) < value then .error .out_of_range
    else .ok value

/-- `getIntegerFromFile(filename)` of PciDevice.cpp.  `file` is the content of
the file, `none` when it cannot be opened. -/
def getIntegerFromFile (file : Option (List Char)) : Except Thrown Int :=
  match file with
  | none => .ok (-1)
  | some contents =>
    let line := getline contents
    stoi line

/-- An entry of the device directory as `PciDevice::open` sees it: its path,
whether it is a directory, and the contents of the files `vendor`, `device`
and `resource` under it (`none` for a file that cannot be opened; `resource`
as the lines `getline` returns). -/
structure DirEntry where
  path : String
  is_directory : Bool
  vendor : Option (List Char)
  device : Option (List Char)
  resource : Option (List (List Char))
  deriving DecidableEq, Repr

/-- The loop of `PciDevice::open` over the entries of the device directory:
the entry at which it breaks with `found = true`, `none` when it runs to the
end. -/
def searchLoop (vendorID deviceID : Int) : List DirEntry → Except Thrown (Option DirEntry)
  | [] => .ok none
  | entry :: rest =>
    if entry.is_directory = false then searchLoop vendorID deviceID rest
    else
      match getIntegerFromFile entry.vendor with
      | .error e => .error e
      | .ok thisVendorID =>
        match getIntegerFromFile entry.device with
        | .error e => .error e
        | .ok thisDeviceID =>
          if thisVendorID = vendorID ∧ thisDeviceID = deviceID then .ok (some entry)
          else searchLoop vendorID deviceID rest

/-- The search of `PciDevice::open`, from the `directory_iterator` to the test
`if (!found)`: the entry of the device found.  `listing` is the content of
`deviceDir`, `none` when it cannot be listed. -/
def locateDevice (vendorID deviceID : Int) (listing : Option (List DirEntry)) :
    Except Thrown DirEntry :=
  match listing with
  | none => .error .filesystem_error
  | some entries =>
    match searchLoop vendorID deviceID entries with
    | .error e => .error e
    | .ok none => .error (.runtime_error (.DeviceNotFound vendorID deviceID))
    | .ok (some entry) => .ok entry

/-- `PciDevice::open(vendorID, deviceID, deviceDir)` of PciDevice.cpp: the
outcome, the object and the kernel after the call; `none` for the undefined
behaviour of `getResourceList`. -/
def PciDevice.open (self : PciDevice) (k : Kernel) (vendorID deviceID : Int)
    (listing : Option (List DirEntry)) : Option (Except Thrown Unit × PciDevice × Kernel) :=
  -- close()
  match self.close k with
  | (dev, k1) =>
    match locateDevice vendorID deviceID listing with
    | .error e => some (.error e, dev, k1)
    | .ok entry =>
      -- resource_ = getResourceList(dirName)
      match PciDevice.getResourceList entry.resource with
      | none => none
      | some (.error e) => some (.error (.runtime_error e), dev, k1)
      | some (.ok resources) =>
        -- mapResources()
        match PciDevice.mapResources { resource_ := resources } k1 with
        | (.error e, dev2, k2) => some (.error (.runtime_error e), dev2, k2)
        | (.ok _, dev2, k2) => some (.ok (), dev2, k2)

/-! ## measure_bw.cpp -/

/-- `HI32(x)` of measure_bw.cpp. -/
def HI32 (x : Nat) : Nat := (x >>> 32) &&& 0xFFFFFFFF

/-- `LO32(x)` of measure_bw.cpp. -/
def LO32 (x : Nat) : Nat := x &&& 0xFFFFFFFF

/-! The register map of the measure_bw core, as indices of 32-bit registers,
and the constants to write to CTL_STAT. -/

def REG_RADDR_H : Nat := 0
def REG_RADDR_L : Nat := 1
def REG_WADDR_H : Nat := 2
def REG_WADDR_L : Nat := 3
def REG_BLK_SIZE : Nat := 4
def REG_COUNT : Nat := 5
def REG_RRESULT_H : Nat := 6
def REG_RRESULT_L : Nat := 7
def REG_WRESULT_H : Nat := 8
def REG_WRESULT_L : Nat := 9
def REG_CTL_STAT : Nat := 10

def START_READ : Nat := 1
def START_WRITE : Nat := 2

/-- Conversion to `uint32_t`. -/
def toU32 (x : Nat) : Nat := x % 2 ^ 32

/-- What a `volatile uint32_t*` reaches: 32-bit loads and stores at byte
addresses, over a device state `σ`. -/
structure Bus (σ : Type) where
  load32 : σ → Nat → Nat × σ
  store32 : σ → Nat → Nat → σ

/-- The byte address of `engine[index]`. -/
def regAddr (engine index : Nat) : Nat := engine + 4 * index

/-- The loop `while (engine[REG_CTL_STAT]) usleep(10000);`, with `fuel`
bounding the number of polls: `none` when the register is still non-zero
after `fuel` polls. -/
def waitIdle {σ : Type} (bus : Bus σ) (engine : Nat) : Nat → σ → Option σ
  | 0, _ => none
  | fuel + 1, s =>
    match bus.load32 s (regAddr engine REG_CTL_STAT) with
    | (status, s1) => if toU32 status ≠ 0 then waitIdle bus engine fuel s1 else some s1

/-- `measureReadBandwidth` of measure_bw.cpp.  `baseAddr` is
`PCI.resourceList()[AXIREG_RESOURCE].baseAddr`; the result is the value
returned and the device state, `none` when the poll loop outlives `fuel`. -/
def measureReadBandwidth {σ : Type} (bus : Bus σ) (baseAddr fuel : Nat) (s : σ)
    (deviceAddress axiAddress blockSize blockCount : Nat) : Option (Nat × σ) :=
  let engine := baseAddr + deviceAddress
  let s := bus.store32 s (regAddr engine REG_RADDR_H) (toU32 (HI32 axiAddress))
  let s := bus.store32 s (regAddr engine REG_RADDR_L) (toU32 (LO32 axiAddress))
  let s := bus.store32 s (regAddr engine REG_BLK_SIZE) (toU32 blockSize)
  let s := bus.store32 s (regAddr engine REG_COUNT) (toU32 blockCount)
  let s := bus.store32 s (regAddr engine REG_CTL_STAT) (toU32 START_READ)
  match waitIdle bus engine fuel s with
  | none => none
  | some s =>
    match bus.load32 s (regAddr engine REG_RRESULT_H) with
    | (hi, s) =>
      match bus.load32 s (regAddr engine REG_RRESULT_L) with
      | (lo, s) => some ((((toU32 hi) <<< 32) % 2 ^ 64) ||| toU32 lo, s)

/-- `measureWriteBandwidth` of measure_bw.cpp, read as `measureReadBandwidth`. -/
def measureWriteBandwidth {σ : Type} (bus : Bus σ) (baseAddr fuel : Nat) (s : σ)
    (deviceAddress axiAddress blockSize blockCount : Nat) : Option (Nat × σ) :=
  let engine := baseAddr + deviceAddress
  let s := bus.store32 s (regAddr engine REG_WADDR_H) (toU32 (HI32 axiAddress))
  let s := bus.store32 s (regAddr engine REG_WADDR_L) (toU32 (LO32 axiAddress))
  let s := bus.store32 s (regAddr engine REG_BLK_SIZE) (toU32 blockSize)
  let s := bus.store32 s (regAddr engine REG_COUNT) (toU32 blockCount)
  let s := bus.store32 s (regAddr engine REG_CTL_STAT) (toU32 START_WRITE)
  match waitIdle bus engine fuel s with
  | none => none
  | some s =>
    match bus.load32 s (regAddr engine REG_WRESULT_H) with
    | (hi, s) =>
      match bus.load32 s (regAddr engine REG_WRESULT_L) with
      | (lo, s) => some ((((toU32 hi) <<< 32) % 2 ^ 64) ||| toU32 lo, s)

/-- The direction of a `MeasurementRequest`. -/
inductive Direction where
  | Read
  | Write
  deriving DecidableEq, Repr

/-- The `measure(direction, ...)` of the specification: the two functions of
measure_bw.cpp under one name. -/
def measure {σ : Type} (direction : Direction) (bus : Bus σ) (baseAddr fuel : Nat) (s : σ)
    (deviceAddress axiAddress blockSize blockCount : Nat) : Option (Nat × σ) :=
  match direction with
  | .Read => measureReadBandwidth bus baseAddr fuel s deviceAddress axiAddress blockSize blockCount
  | .Write =>
    measureWriteBandwidth bus baseAddr fuel s deviceAddress axiAddress blockSize blockCount

/-- A simulated register file for the bandwidth engine. -/
structure SimEngine where
  /-- The byte address of CTL_STAT. -/
  ctlStat : Nat
  /-- The content of every other register, by byte address. -/
  regs : Nat → Nat
  /-- What CTL_STAT returns to the coming polls, one value a poll; it reads 0
  once the list is used up. -/
  busy : List Nat
  /-- Every store made so far, as (byte address, value), oldest first. -/
  stores : List (Nat × Nat)

/-- A load from the simulated register file. -/
def SimEngine.load32 (s : SimEngine) (addr : Nat) : Nat × SimEngine :=
  if addr = s.ctlStat then
    match s.busy with
    | [] => (0, s)
    | status :: rest => (status, { s with busy := rest })
  else (s.regs addr, s)

/-- A store to the simulated register file: logged, and kept by every register
but CTL_STAT, whose reads come from `busy`. -/
def SimEngine.store32 (s : SimEngine) (addr value : Nat) : SimEngine :=
  { s with regs := fun a => if a = addr ∧ addr ≠ s.ctlStat then value else s.regs a,
           stores := s.stores ++ [(addr, value)] }

/-- The simulated register file as a `Bus`. -/
def simBus : Bus SimEngine :=
  { load32 := SimEngine.load32, store32 := SimEngine.store32 }

/-- The start code of a direction: `START_READ` or `START_WRITE`. -/
def startCode : Direction → Nat
  | .Read => START_READ
  | .Write => START_WRITE

/-- The registers of the target address of a direction, high then low. -/
def addrRegs : Direction → Nat × Nat
  | .Read => (REG_RADDR_H, REG_RADDR_L)
  | .Write => (REG_WADDR_H, REG_WADDR_L)

/-- The result registers of a direction, high then low. -/
def resultRegs : Direction → Nat × Nat
  | .Read => (REG_RRESULT_H, REG_RRESULT_L)
  | .Write => (REG_WRESULT_H, REG_WRESULT_L)

/-! ## Vocabulary of the statements

The definitions marked "Specification side" follow the words of the
specification; the others name parts of what the code above does. -/

/-- Specification side: a run of decimal digits read as a decimal integer. -/
def specDecimal (digits : List Char) : Nat :=
  digits.foldl (fun acc c => acc * 10 + (c.toNat - 48)) 0

/-- Specification side: the multiplier of a suffix, 2^10 for `K`, 2^20 for `M`,
2^30 for `G`. -/
def specScale (suffix : Char) : Nat :=
  if suffix = 'K' then 2 ^ 10 else if suffix = 'M' then 2 ^ 20 else if suffix = 'G' then 2 ^ 30
  else 0

/-- The entry one pass of the loop of `getResourceList` appends for a line,
`p2` being the line from its first space on: `none` when the parsed start is
0 and the line is skipped. -/
def lineResource (line : List Char) : Option resource_t :=
  let starting_address := strtoll line
  let ending_address := strtoll ((strchr line ' ').getD [])
  if starting_address = 0 then none
  else some { baseAddr := 0, size := toU64 (ending_address - starting_address + 1),
              physAddr := toU64 starting_address }

/-- Specification side: a hexadecimal digit. -/
def specIsHexDigit (c : Char) : Bool :=
  (decide (48 ≤ c.toNat) && decide (c.toNat ≤ 57)) ||
  (decide (97 ≤ c.toNat) && decide (c.toNat ≤ 102)) ||
  (decide (65 ≤ c.toNat) && decide (c.toNat ≤ 70))

/-- Specification side: the value of a hexadecimal digit. -/
def specHexDigit (c : Char) : Nat :=
  if c.toNat ≤ 57 then c.toNat - 48 else if c.toNat ≤ 70 then c.toNat - 55 else c.toNat - 87

/-- Specification side: a run of hexadecimal digits read as a hexadecimal
integer. -/
def specHex (digits : List Char) : Nat :=
  digits.foldl (fun acc c => acc * 16 + specHexDigit c) 0

/-- The entries `pre` with the addresses `ptrs` filled in as their `baseAddr`,
as the loop of `mapResources` leaves the entries it has mapped. -/
def fillBase (pre : List resource_t) (ptrs : List Nat) : List resource_t :=
  List.zipWith (fun r p => { r with baseAddr := p }) pre ptrs

/-- The successful `mmap` calls that map the entries `pre` at `ptrs`. -/
def mapEvents (fd : Int) (pre : List resource_t) (ptrs : List Nat) : List Syscall :=
  List.zipWith (fun r p => Syscall.mmap r.size fd r.physAddr (some p)) pre ptrs

/-- The `munmap` calls of `close()` over the entries `rs`: one for every entry
whose `baseAddr` is not null, in order. -/
def unmapEvents (rs : List resource_t) : List Syscall :=
  (rs.filter (fun r => decide (r.baseAddr ≠ 0))).map
    (fun r => Syscall.munmap r.baseAddr r.size)

/-- The mappings left of `live` once `close()` has run over the entries `rs`. -/
def liveAfterUnmap (live : List Mapping) (rs : List resource_t) : List Mapping :=
  (rs.filter (fun r => decide (r.baseAddr ≠ 0))).foldl
    (fun l r => l.erase { addr := r.baseAddr, length := r.size }) live

/-- A device with two resources, nothing mapped yet. -/
def twoBars : PciDevice :=
  { resource_ := [{ baseAddr := 0, size := 0x1000, physAddr := 0xfe000000 },
                  { baseAddr := 0, size := 0x2000, physAddr := 0xfe100000 }] }

/-- A kernel with nothing mapped that opens `/dev/mem` as descriptor 3, maps
the first region asked for at 0x7f0000001000 and fails the second `mmap`. -/
def secondMapFails : Kernel :=
  { devMem := 3, mmapScript := [some 0x7f0000001000, none], live := [], trace := [] }

/-- The registers `measure` must leave alone: the address pair of the other
direction and the four result registers. -/
def untouchedRegs : Direction → List Nat
  | .Read => [REG_WADDR_H, REG_WADDR_L, REG_RRESULT_H, REG_RRESULT_L, REG_WRESULT_H,
              REG_WRESULT_L]
  | .Write => [REG_RADDR_H, REG_RADDR_L, REG_RRESULT_H, REG_RRESULT_L, REG_WRESULT_H,
               REG_WRESULT_L]

/-- A simulated engine at byte address 0x1000 whose CTL_STAT reads 1 for three
polls and whose RRESULT_H holds 1, every other register 0. -/
def busyThreePolls : SimEngine :=
  { ctlStat := regAddr 0x1000 REG_CTL_STAT
    regs := fun a => if a = regAddr 0x1000 REG_RRESULT_H then 1 else 0
    busy := [1, 1, 1]
    stores := [] }

/-- The regions a resource list holds mapped: one for every entry whose
`baseAddr` is not null, in order. -/
def mappedRegions (rs : List resource_t) : List Mapping :=
  (rs.filter (fun r => decide (r.baseAddr ≠ 0))).map
    (fun r => { addr := r.baseAddr, length := r.size })

/-- A kernel with nothing mapped on which `/dev/mem` cannot be opened. -/
def devMemRefused : Kernel :=
  { devMem := -1, mmapScript := [some 0x7f0000001000], live := [], trace := [] }

/-- A subdirectory whose `vendor` file cannot be opened and whose `device` file
holds 0x903f. -/
def noVendorFile : DirEntry :=
  { path := "/sys/bus/pci/devices/0000:01:00.0", is_directory := true, vendor := none,
    device := some "0x903f".toList, resource := some ["0x100 0x1ff 0x200".toList] }

/-- The subdirectory of a Sidewinder: vendor 0x10ee, device 0x903f, one
region of 0x100 bytes at 0x100. -/
def sidewinderDir : DirEntry :=
  { path := "/sys/bus/pci/devices/0000:02:00.0", is_directory := true,
    vendor := some "0x10ee".toList, device := some "0x903f".toList,
    resource := some ["0x0 0x0 0x0".toList, "0x100 0x1ff 0x200".toList] }

/-- The subdirectory of another device: vendor 0x8086, device 0x1234. -/
def otherDir : DirEntry :=
  { path := "/sys/bus/pci/devices/0000:00:02.0", is_directory := true,
    vendor := some "0x8086".toList, device := some "0x1234".toList,
    resource := some ["0x200 0x2ff 0x200".toList] }

/-- A device holding one region mapped, of 0x100 bytes at 0x7f0000001000. -/
def oneBarMapped : PciDevice :=
  { resource_ := [{ baseAddr := 0x7f0000001000, size := 0x100, physAddr := 0x100 }] }

/-- A kernel on which that region is the only mapping in place and `/dev/mem`
cannot be opened. -/
def oneRegionLive : Kernel :=
  { devMem := -1, mmapScript := [], live := [{ addr := 0x7f0000001000, length := 0x100 }],
    trace := [] }

/-! ## Lemmas on the C library -/

theorem toU64_wrapI64 (x : Int) : toU64 (wrapI64 x) = toU64 x := by
  unfold toU64 wrapI64; omega

theorem toU64_of_lt {n : Nat} (h : n < 2 ^ 64) : toU64 (n : Int) = n := by
  unfold toU64; omega

theorem isspace_of_isDigit {c : Char} (h : isDigit c = true) : isspace c = false := by
  simp [isDigit, isspace] at *
  constructor
  · rintro rfl; simp at h
  · omega

theorem digitValue_of_isDigit {c : Char} (h : isDigit c = true) :
    digitValue c = c.toNat - 48 ∧ digitValue c < 10 := by
  unfold digitValue
  rw [if_pos h]
  simp [isDigit] at h
  omega

theorem strchr_of_not_mem {s : List Char} {c : Char} (hc : c ≠ NUL) (h : c ∉ s) :
    strchr s c = none := by
  induction s with
  | nil => simp [strchr, hc]
  | cons x xs ih =>
    simp only [List.mem_cons, not_or] at h
    unfold strchr
    rw [if_neg (fun e => h.1 e.symm)]
    split
    · rfl
    · exact ih h.2

theorem strchr_append {pre : List Char} {c : Char} (rest : List Char)
    (hnul : NUL ∉ pre) (h : c ∉ pre) : strchr (pre ++ c :: rest) c = some (c :: rest) := by
  induction pre with
  | nil => simp [strchr]
  | cons x xs ih =>
    simp only [List.mem_cons, not_or] at h hnul
    simp only [List.cons_append]
    unfold strchr
    rw [if_neg (fun e => h.1 e.symm), if_neg (fun e => hnul.1 e.symm)]
    exact ih hnul.2 h.2

theorem strchr_cut {pre : List Char} {c : Char} (rest : List Char)
    (h : c ∉ pre) :
    strchr (pre ++ c :: rest) c = some (c :: rest) ∨ strchr (pre ++ c :: rest) c = none := by
  induction pre with
  | nil => simp [strchr]
  | cons x xs ih =>
    simp only [List.mem_cons, not_or] at h
    simp only [List.cons_append]
    unfold strchr
    rw [if_neg (fun e => h.1 e.symm)]
    split
    · exact Or.inr rfl
    · exact ih h.2

theorem dropWhile_isDigit_append {digits rest : List Char}
    (hd : ∀ x ∈ digits, isDigit x = true) (hr : ∀ c, rest.head? = some c → isDigit c = false) :
    (digits ++ rest).dropWhile isDigit = rest := by
  induction digits with
  | nil =>
    cases rest with
    | nil => rfl
    | cons r rs => simp [List.dropWhile, hr r rfl]
  | cons x xs ih =>
    simp only [List.cons_append, List.dropWhile, hd x (List.mem_cons_self _ _)]
    exact ih (fun y hy => hd y (List.mem_cons_of_mem _ hy))

theorem accumDigits_decimal (digits rest : List Char) (acc : Nat)
    (hd : ∀ x ∈ digits, isDigit x = true)
    (hr : ∀ c, rest.head? = some c → 10 ≤ digitValue c) :
    accumDigits 10 acc (digits ++ rest)
      = digits.foldl (fun a c => a * 10 + (c.toNat - 48)) acc := by
  induction digits generalizing acc with
  | nil =>
    cases rest with
    | nil => rfl
    | cons r rs =>
      have := hr r rfl
      simp only [List.nil_append, accumDigits, List.foldl_nil]
      rw [if_neg (by omega)]
  | cons x xs ih =>
    have hx := digitValue_of_isDigit (hd x (List.mem_cons_self _ _))
    simp only [List.cons_append, accumDigits, List.foldl_cons]
    rw [if_pos hx.2, hx.1]
    exact ih _ (fun y hy => hd y (List.mem_cons_of_mem _ hy))

theorem parseKMG_after {pre : List Char} {delimeter : Char} (tl : List Char)
    (hnul : NUL ∉ pre) (h : delimeter ∉ pre) :
    parseKMG delimeter (pre ++ delimeter :: tl) =
      if deref (tl.dropWhile isDigit) = 'K' then toU64 (strtol tl * 1024)
      else if deref (tl.dropWhile isDigit) = 'M' then toU64 (strtol tl * 1024 * 1024)
      else if deref (tl.dropWhile isDigit) = 'G' then toU64 (strtol tl * 1024 * 1024 * 1024)
      else 0 := by
  unfold parseKMG
  rw [strchr_append tl hnul h]
  simp only [List.tail_cons]
  have e1 : toU64 (wrapI64 (wrapI64 (strtol tl * 1024) * 1024))
      = toU64 (strtol tl * 1024 * 1024) := by unfold toU64 wrapI64; omega
  have e2 : toU64 (wrapI64 (wrapI64 (wrapI64 (strtol tl * 1024) * 1024) * 1024))
      = toU64 (strtol tl * 1024 * 1024 * 1024) := by unfold toU64 wrapI64; omega
  rw [toU64_wrapI64, e1, e2]

theorem parseKMG_zero_of_suffix {pre : List Char} {delimeter : Char} (tl : List Char)
    (h : delimeter ∉ pre)
    (hK : deref (tl.dropWhile isDigit) ≠ 'K') (hM : deref (tl.dropWhile isDigit) ≠ 'M')
    (hG : deref (tl.dropWhile isDigit) ≠ 'G') :
    parseKMG delimeter (pre ++ delimeter :: tl) = 0 := by
  unfold parseKMG
  rcases strchr_cut tl h with e | e
  · rw [e]; simp only [List.tail_cons]; rw [if_neg hK, if_neg hM, if_neg hG]
  · rw [e]

theorem parseKMG_zero_after_run {delimeter : Char} {pre digits rest : List Char}
    (hpre : delimeter ∉ pre) (hdig : ∀ x ∈ digits, isDigit x = true)
    (hrest : ∀ c, rest.head? = some c → isDigit c = false ∧ c ≠ 'K' ∧ c ≠ 'M' ∧ c ≠ 'G') :
    parseKMG delimeter (pre ++ delimeter :: (digits ++ rest)) = 0 := by
  have hdrop : (digits ++ rest).dropWhile isDigit = rest :=
    dropWhile_isDigit_append hdig (fun c hc => (hrest c hc).1)
  have hnot : deref rest ≠ 'K' ∧ deref rest ≠ 'M' ∧ deref rest ≠ 'G' := by
    cases rest with
    | nil => decide
    | cons r rs =>
      obtain ⟨-, hK, hM, hG⟩ := hrest r rfl
      exact ⟨hK, hM, hG⟩
  apply parseKMG_zero_of_suffix _ hpre <;> rw [hdrop]
  · exact hnot.1
  · exact hnot.2.1
  · exact hnot.2.2

theorem strtol_unsigned {s s2 : List Char} {base : Nat}
    (hsp : s.dropWhile isspace = s) (hsign : readSign s = (false, s))
    (hbase : detectBase s = (base, s2)) :
    strtol s = if 2 ^ 63 - 1 < accumDigits base 0 s2 then (2 ^ 63 - 1 : Int)
      else (accumDigits base 0 s2 : Int) := by
  unfold strtol
  rw [hsp, hsign]
  simp only [hbase, Bool.false_eq_true, if_false]

theorem strtol_head_digit {x : Char} {t s2 : List Char} {base : Nat}
    (hx : isDigit x = true) (hbase : detectBase (x :: t) = (base, s2)) :
    strtol (x :: t) = if 2 ^ 63 - 1 < accumDigits base 0 s2 then (2 ^ 63 - 1 : Int)
      else (accumDigits base 0 s2 : Int) := by
  have hminus : x ≠ '-' := by rintro rfl; simp [isDigit] at hx
  have hplus : x ≠ '+' := by rintro rfl; simp [isDigit] at hx
  apply strtol_unsigned _ _ hbase
  · simp [List.dropWhile, isspace_of_isDigit hx]
  · simp [readSign, hminus, hplus]

theorem detectBase_decimal {x : Char} (t : List Char) (hx : x ≠ '0') :
    detectBase (x :: t) = (10, x :: t) := by
  unfold detectBase
  split
  · next h => simp only [List.cons.injEq] at h; rw [if_neg (h.1 ▸ hx)]
  · next h => simp only [List.cons.injEq] at h; rw [if_neg (h.1 ▸ hx)]
  · rfl

theorem strtol_decimal (digits rest : List Char) (x : Char) (xs : List Char)
    (hdig : digits = x :: xs) (hx : x ≠ '0')
    (hd : ∀ c ∈ digits, isDigit c = true)
    (hr : ∀ c, rest.head? = some c → 10 ≤ digitValue c) :
    strtol (digits ++ rest)
      = if 2 ^ 63 - 1 < specDecimal digits then (2 ^ 63 - 1 : Int)
        else (specDecimal digits : Int) := by
  have hxd : isDigit x = true := hd x (by simp [hdig])
  have e : digits ++ rest = x :: (xs ++ rest) := by simp [hdig]
  rw [e, strtol_head_digit hxd (detectBase_decimal _ hx), ← e,
    accumDigits_decimal _ _ _ hd hr]
  rfl

theorem strtol_zero_then_suffix (suffix : Char) (rest : List Char) (hs : 10 ≤ digitValue suffix)
    (hx : suffix ≠ 'x') (hX : suffix ≠ 'X') : strtol ('0' :: suffix :: rest) = 0 := by
  have hbase : detectBase ('0' :: suffix :: rest) = (8, '0' :: suffix :: rest) := by
    cases rest with
    | nil => simp [detectBase]
    | cons r rs => simp [detectBase, hx, hX]
  have h0 : digitValue '0' = 0 := by decide
  have hacc : accumDigits 8 0 ('0' :: suffix :: rest) = 0 := by
    simp only [accumDigits, h0]
    rw [if_pos (by omega), if_neg (by omega)]
  rw [strtol_head_digit (by decide) hbase, hacc]
  simp

theorem suffix_facts {suffix : Char} (h : suffix = 'K' ∨ suffix = 'M' ∨ suffix = 'G') :
    isDigit suffix = false ∧ 10 ≤ digitValue suffix ∧ suffix ≠ 'x' ∧ suffix ≠ 'X' := by
  rcases h with rfl | rfl | rfl <;> decide

theorem specDecimal_singleton_zero : specDecimal ['0'] = 0 := by decide

/-! ## parseKMG -/

/-- C5 (counterexample): the digit run `010` before `K` satisfies every
condition of the claim, its decimal reading times 2^10 fits in 64 bits, and
`parseKMG` returns 8 * 2^10, not 10 * 2^10, because `strtol` with base 0 reads
a run with a leading zero in base 8. -/
theorem parseKMG_leading_zero_counterexample :
    (∀ x ∈ "010".toList, isDigit x = true) ∧
    specDecimal "010".toList * specScale 'K' < 2 ^ 64 ∧
    parseKMG '=' "memmap=010K$1G".toList = 8 * 2 ^ 10 ∧
    parseKMG '=' "memmap=010K$1G".toList ≠ specDecimal "010".toList * specScale 'K' := by
  decide

/-- C5 (amended): when the first occurrence of the delimiter is followed by a
non-empty run of decimal digits that has no leading zero (the run is `0`, or
does not begin with `0`) and then by `K`, `M` or `G`, `parseKMG` returns the
decimal value of the run times 2^10, 2^20 or 2^30, whenever that product fits
in 64 bits. -/
theorem parseKMG_scaled (delimeter suffix : Char) (pre digits rest : List Char)
    (hnul : NUL ∉ pre) (hpre : delimeter ∉ pre)
    (hne : digits ≠ []) (hdig : ∀ x ∈ digits, isDigit x = true)
    (hlead : digits = ['0'] ∨ digits.head? ≠ some '0')
    (hsuf : suffix = 'K' ∨ suffix = 'M' ∨ suffix = 'G')
    (hfit : specDecimal digits * specScale suffix < 2 ^ 64) :
    parseKMG delimeter (pre ++ delimeter :: (digits ++ suffix :: rest))
      = specDecimal digits * specScale suffix := by
  obtain ⟨hsd, hsv, hsx, hsX⟩ := suffix_facts hsuf
  have hdrop : (digits ++ suffix :: rest).dropWhile isDigit = suffix :: rest :=
    dropWhile_isDigit_append hdig (fun c hc => by
      simp only [List.head?_cons, Option.some.injEq] at hc; exact hc ▸ hsd)
  have hval : strtol (digits ++ suffix :: rest)
      = if 2 ^ 63 - 1 < specDecimal digits then (2 ^ 63 - 1 : Int)
        else (specDecimal digits : Int) := by
    rcases hlead with h0 | hnz
    · subst h0
      rw [specDecimal_singleton_zero]
      simpa using strtol_zero_then_suffix suffix rest hsv hsx hsX
    · cases digits with
      | nil => exact absurd rfl hne
      | cons x xs =>
        have hx : x ≠ '0' := fun e => hnz (by simp [e])
        exact strtol_decimal _ _ x xs rfl hx hdig (fun c hc => by
          simp only [List.head?_cons, Option.some.injEq] at hc; exact hc ▸ hsv)
  rw [parseKMG_after _ hnul hpre, hdrop, hval]
  simp only [deref, List.headD_cons]
  rcases hsuf with rfl | rfl | rfl
  · have hs : specScale 'K' = 1024 := by decide
    rw [hs] at hfit ⊢
    rw [if_pos rfl, if_neg (by omega)]
    unfold toU64; omega
  · have hs : specScale 'M' = 1024 * 1024 := by decide
    rw [hs] at hfit ⊢
    rw [if_neg (by decide), if_pos rfl, if_neg (by omega)]
    unfold toU64; omega
  · have hs : specScale 'G' = 1024 * 1024 * 1024 := by decide
    rw [hs] at hfit ⊢
    rw [if_neg (by decide), if_neg (by decide), if_pos rfl, if_neg (by omega)]
    unfold toU64; omega

/-- Witness of `parseKMG_scaled`: the size scan of `memmap=4G$0x800000000`
is 4 * 2^30. -/
theorem parseKMG_scaled_witness :
    parseKMG '=' "memmap=4G$0x800000000".toList = 4 * 2 ^ 30 :=
  parseKMG_scaled '=' 'G' "memmap".toList "4".toList "$0x800000000".toList
    (by decide) (by decide) (by decide) (by decide) (by decide) (by decide) (by decide)

/-- C6: for a delimiter other than NUL, `parseKMG` returns 0 when the
delimiter does not occur in the text, and returns 0 when the run of decimal
digits after the first delimiter (empty or not) is followed by the end of the
text or by a character that is none of `K`, `M`, `G`, whatever the digits
are. -/
theorem parseKMG_zero (delimeter : Char) (hDelim : delimeter ≠ NUL) :
    (∀ text : List Char, delimeter ∉ text → parseKMG delimeter text = 0) ∧
    (∀ pre digits rest : List Char, delimeter ∉ pre →
      (∀ x ∈ digits, isDigit x = true) →
      (∀ c, rest.head? = some c → isDigit c = false ∧ c ≠ 'K' ∧ c ≠ 'M' ∧ c ≠ 'G') →
      parseKMG delimeter (pre ++ delimeter :: (digits ++ rest)) = 0) := by
  refine ⟨fun text h => ?_, fun pre digits rest hpre hdig hrest => ?_⟩
  · unfold parseKMG
    rw [strchr_of_not_mem hDelim h]
  · exact parseKMG_zero_after_run hpre hdig hrest

/-- Witness of `parseKMG_zero`: no `$` in `memmap=4G`, and a blank after the
digits of `memmap=12345 quiet`. -/
theorem parseKMG_zero_witness :
    parseKMG '$' "memmap=4G".toList = 0 ∧ parseKMG '=' "memmap=12345 quiet".toList = 0 :=
  ⟨(parseKMG_zero '$' (by decide)).1 "memmap=4G".toList (by decide),
   (parseKMG_zero '=' (by decide)).2 "memmap".toList "12345".toList " quiet".toList
     (by decide) (by decide)
     (fun c hc => by
       simp only [String.toList, List.head?_cons, Option.some.injEq] at hc
       subst hc; decide)⟩

/-- C7 (counterexample): the address scan of `memmap=4G$0x800000000` is not
0x800000000. -/
theorem parseKMG_hex_address_counterexample :
    parseKMG '$' "memmap=4G$0x800000000".toList ≠ 0x800000000 := by
  decide

/-- C7 (amended): the address scan of `memmap=4G$0x800000000` returns 0, as
the digit run after `$` is `0` and the character after it is `x`; so does the
address scan of every text whose first `$` is followed by `0x`.  On
`memmap=4G$32G`, the boot syntax with a scaled decimal address, the scan
yields the address 0x800000000. -/
theorem parseKMG_dollar_address :
    parseKMG '$' "memmap=4G$0x800000000".toList = 0 ∧
    parseKMG '$' "memmap=4G$32G".toList = 0x800000000 ∧
    (∀ pre rest : List Char, '$' ∉ pre →
      parseKMG '$' (pre ++ '$' :: '0' :: 'x' :: rest) = 0) := by
  refine ⟨by decide, by decide, fun pre rest hpre => ?_⟩
  exact @parseKMG_zero_after_run '$' pre ['0'] ('x' :: rest) hpre (by decide)
    (fun c hc => by
      simp only [List.head?_cons, Option.some.injEq] at hc
      subst hc; decide)

/-! ## findContig -/

theorem strstr_of_not_infix {s needle : List Char} (h : ¬ needle <:+: s) :
    strstr s needle = none := by
  induction s with
  | nil =>
    unfold strstr
    split
    · next he =>
      exact absurd (by rw [List.isEmpty_iff.mp he]) h
    · rfl
  | cons x xs ih =>
    unfold strstr
    split
    · next hp => exact absurd (List.isPrefixOf_iff_prefix.mp hp).isInfix h
    · split
      · rfl
      · exact ih (fun hi => h (hi.trans (List.suffix_cons x xs).isInfix))

theorem strstr_first {needle t : List Char} (pre : List Char) (hnul : NUL ∉ pre)
    (ht : needle <+: t)
    (hmin : ∀ pre2 t2 : List Char, pre ++ t = pre2 ++ t2 → needle <+: t2 →
      pre.length ≤ pre2.length) :
    strstr (pre ++ t) needle = some t := by
  induction pre with
  | nil =>
    cases t with
    | nil =>
      have : needle = [] := List.prefix_nil.mp ht
      simp [strstr, this]
    | cons y ys =>
      simp only [List.nil_append]
      unfold strstr
      rw [if_pos (List.isPrefixOf_iff_prefix.mpr ht)]
  | cons x xs ih =>
    simp only [List.mem_cons, not_or] at hnul
    simp only [List.cons_append]
    unfold strstr
    have hno : ¬ needle.isPrefixOf (x :: (xs ++ t)) = true := by
      intro hp
      have := hmin [] (x :: (xs ++ t)) (by simp) (List.isPrefixOf_iff_prefix.mp hp)
      simp at this
    rw [if_neg hno, if_neg (fun e => hnul.1 e.symm)]
    apply ih hnul.2
    intro pre2 t2 he hp
    have := hmin (x :: pre2) t2 (by simp [he]) hp
    simpa using this

theorem strstr_some {s needle p : List Char} (h : strstr s needle = some p) :
    p <:+ s ∧ needle <+: p := by
  induction s with
  | nil =>
    unfold strstr at h
    split at h
    · next he =>
      simp only [Option.some.injEq] at h
      subst h
      exact ⟨List.suffix_refl _, by rw [List.isEmpty_iff.mp he]⟩
    · exact absurd h (by simp)
  | cons x xs ih =>
    unfold strstr at h
    split at h
    · next hp =>
      simp only [Option.some.injEq] at h
      subst h
      exact ⟨List.suffix_refl _, List.isPrefixOf_iff_prefix.mp hp⟩
    · split at h
      · exact absurd h (by simp)
      · exact ⟨(ih h).1.trans (List.suffix_cons x xs), (ih h).2⟩

/-- C1: for every content of the boot command line file, with `L` its first
line: `findContig` fails with MalformedConfig if `L` does not contain
`memmap=`; otherwise, with `t` the text of `L` from the first `memmap=` on
(no NUL standing before it), it fails with NoReservedBuffer if
`parseKMG '$' t` is 0, else with BufferTooSmall if `parseKMG '=' t` is less
than 2^30, else returns exactly `parseKMG '$' t`.  Hence every returned
address is non-zero, and is the `$` scan of a text of `L` that begins with
`memmap=` and whose `=` scan is at least 2^30. -/
theorem findContig_contract (contents : List Char) :
    (¬ "memmap=".toList <:+: getline contents →
      findContig (some contents) = .error .MalformedConfig) ∧
    (∀ pre t : List Char, getline contents = pre ++ t → NUL ∉ pre →
      "memmap=".toList <+: t →
      (∀ pre2 t2 : List Char, getline contents = pre2 ++ t2 → "memmap=".toList <+: t2 →
        pre.length ≤ pre2.length) →
      findContig (some contents) =
        if parseKMG '$' t = 0 then .error .NoReservedBuffer
        else if parseKMG '=' t < 2 ^ 30 then .error (.BufferTooSmall (parseKMG '=' t))
        else .ok (parseKMG '$' t)) ∧
    (∀ addr : Nat, findContig (some contents) = .ok addr →
      addr ≠ 0 ∧ ∃ t : List Char, t <:+ getline contents ∧ "memmap=".toList <+: t ∧
        addr = parseKMG '$' t ∧ 2 ^ 30 ≤ parseKMG '=' t) := by
  have hgig : ONE_GIG = 2 ^ 30 := by decide
  refine ⟨fun h => ?_, fun pre t hL hnul ht hmin => ?_, fun addr h => ?_⟩
  · simp only [findContig, strstr_of_not_infix h]
  · have hs : strstr (getline contents) "memmap=".toList = some t := by
      rw [hL]
      exact strstr_first pre hnul ht (fun pre2 t2 he hp => hmin pre2 t2 (hL.trans he) hp)
    simp only [findContig, hs, hgig]
  · simp only [findContig] at h
    cases hs : strstr (getline contents) "memmap=".toList with
    | none => rw [hs] at h; simp at h
    | some p =>
      rw [hs] at h
      simp only [hgig] at h
      split at h
      · simp at h
      · next hz =>
        split at h
        · simp at h
        · next hsz =>
          simp only [Except.ok.injEq] at h
          subst h
          exact ⟨hz, p, (strstr_some hs).1, (strstr_some hs).2, rfl, by omega⟩

theorem findContig_hex_address (rest : List Char) :
    findContig (some ("memmap=512M$0x".toList ++ rest)) = .error .NoReservedBuffer := by
  have hline : getline ("memmap=512M$0x".toList ++ rest)
      = "memmap=".toList ++ ("512M".toList ++ '$' :: (['0'] ++ 'x' :: getline rest)) := by
    show List.takeWhile _ ('m' :: 'e' :: 'm' :: 'm' :: 'a' :: 'p' :: '=' :: '5' :: '1' :: '2' ::
      'M' :: '$' :: '0' :: 'x' :: rest) = _
    simp only [List.takeWhile_cons]
    rfl
  have hfound : strstr (getline ("memmap=512M$0x".toList ++ rest)) "memmap=".toList
      = some (getline ("memmap=512M$0x".toList ++ rest)) := by
    rw [hline]
    exact strstr_first [] (by simp) (List.prefix_append _ _) (fun _ _ _ _ => Nat.zero_le _)
  have haddr : parseKMG '$' (getline ("memmap=512M$0x".toList ++ rest)) = 0 := by
    rw [hline]
    exact @parseKMG_zero_after_run '$' "memmap=512M".toList ['0'] ('x' :: getline rest)
      (by decide) (by decide)
      (fun c hc => by
        simp only [List.head?_cons, Option.some.injEq] at hc
        subst hc; decide)
  simp only [findContig, hfound, haddr, if_true]

/-- C8 (counterexample): on `memmap=512M$0x100000000` `findContig` fails with
NoReservedBuffer, hence with no BufferTooSmall of any size. -/
theorem findContig_hex_address_counterexample :
    findContig (some "memmap=512M$0x100000000".toList) = .error .NoReservedBuffer ∧
    ¬ ∃ size : Nat,
      findContig (some "memmap=512M$0x100000000".toList) = .error (.BufferTooSmall size) := by
  have h : findContig (some "memmap=512M$0x100000000".toList) = .error .NoReservedBuffer := by
    decide
  refine ⟨h, ?_⟩
  rintro ⟨size, hs⟩
  rw [h] at hs
  cases hs

/-- C8 (amended): on `memmap=512M$0x100000000`, and on every command line
that begins with `memmap=512M$0x`, `findContig` fails with NoReservedBuffer,
the `$` scan of a 0x-prefixed address being 0.  On `memmap=512M$4G`, a 512 MiB
reservation at the non-zero address 4 * 2^30 = 0x100000000, it fails with
BufferTooSmall, and with no other error kind. -/
theorem findContig_small_buffer :
    findContig (some "memmap=512M$0x100000000".toList) = .error .NoReservedBuffer ∧
    (∀ rest : List Char,
      findContig (some ("memmap=512M$0x".toList ++ rest)) = .error .NoReservedBuffer) ∧
    parseKMG '$' "memmap=512M$4G".toList = 0x100000000 ∧
    findContig (some "memmap=512M$4G".toList) = .error (.BufferTooSmall (512 * 2 ^ 20)) := by
  refine ⟨by decide, findContig_hex_address, by decide, by decide⟩

/-! ## getResourceList -/

theorem strtol_range (s : List Char) : -(2 ^ 63 : Int) ≤ strtol s ∧ strtol s ≤ 2 ^ 63 - 1 := by
  unfold strtol
  simp only
  split <;> split <;> omega

theorem toU64_eq_zero_iff {x : Int} (h1 : -(2 ^ 63 : Int) ≤ x) (h2 : x ≤ 2 ^ 63 - 1) :
    toU64 x = 0 ↔ x = 0 := by
  unfold toU64; omega

theorem strchr_isSome {c : Char} (pre rest : List Char) (hnul : NUL ∉ pre) :
    ∃ p, strchr (pre ++ c :: rest) c = some p := by
  induction pre with
  | nil => exact ⟨c :: rest, by simp [strchr]⟩
  | cons x xs ih =>
    simp only [List.mem_cons, not_or] at hnul
    simp only [List.cons_append]
    unfold strchr
    split
    · exact ⟨_, rfl⟩
    · rw [if_neg (fun e => hnul.1 e.symm)]
      exact ih hnul.2

theorem resourceLoop_eq (lines : List (List Char)) (result : List resource_t)
    (h : ∀ line ∈ lines, ∃ pre rest : List Char, line = pre ++ ' ' :: rest ∧ NUL ∉ pre) :
    resourceLoop lines result = some (result ++ lines.filterMap lineResource) := by
  induction lines generalizing result with
  | nil => simp [resourceLoop]
  | cons line more ih =>
    obtain ⟨pre, rest, hl, hnul⟩ := h line (List.mem_cons_self _ _)
    obtain ⟨p, hp⟩ := strchr_isSome (c := ' ') pre rest hnul
    have hmore := fun l hl => h l (List.mem_cons_of_mem _ hl)
    rw [← hl] at hp
    unfold resourceLoop
    simp only [hp]
    by_cases hz : strtoll line = 0
    · rw [if_pos hz, ih _ hmore]
      simp [List.filterMap_cons, lineResource, hz]
    · rw [if_neg hz, ih _ hmore]
      have hsize : toU64 (wrapI64 (wrapI64 (strtoll p - strtoll line) + 1))
          = toU64 (strtoll p - strtoll line + 1) := by
        unfold toU64 wrapI64; omega
      simp [List.filterMap_cons, lineResource, hz, hp, hsize]

theorem getResourceList_eq (lines : List (List Char))
    (h : ∀ line ∈ lines, ∃ pre rest : List Char, line = pre ++ ' ' :: rest ∧ NUL ∉ pre) :
    PciDevice.getResourceList (some lines) =
      some (if lines.filterMap lineResource = [] then .error .NoMappableResources
            else .ok (lines.filterMap lineResource)) := by
  unfold PciDevice.getResourceList
  simp only [resourceLoop_eq lines [] h, List.nil_append, List.isEmpty_iff]
  split <;> rfl

theorem lineResource_some {line : List Char} {r : resource_t} (h : lineResource line = some r) :
    strtoll line ≠ 0 ∧ r.baseAddr = 0 ∧ r.physAddr = toU64 (strtoll line) ∧ r.physAddr ≠ 0 ∧
    r.size = toU64 (strtoll ((strchr line ' ').getD []) - strtoll line + 1) := by
  unfold lineResource at h
  simp only at h
  split at h
  · exact absurd h (by simp)
  · next hz =>
    simp only [Option.some.injEq] at h
    subst h
    refine ⟨hz, rfl, rfl, ?_, rfl⟩
    have hr := strtol_range line
    exact fun e => hz ((toU64_eq_zero_iff hr.1 hr.2).mp e)

theorem lineResource_eq_none {line : List Char} : lineResource line = none ↔ strtoll line = 0 := by
  unfold lineResource
  simp only
  split <;> simp [*]

theorem filterMap_physAddr (lines : List (List Char)) :
    (lines.filterMap lineResource).map (fun r => r.physAddr)
      = (lines.map (fun line => toU64 (strtoll line))).filter (fun a => decide (a ≠ 0)) := by
  induction lines with
  | nil => rfl
  | cons line more ih =>
    cases hl : lineResource line with
    | none =>
      have hz := lineResource_eq_none.mp hl
      have h0 : toU64 0 = 0 := by decide
      simp [List.filterMap_cons, hl, hz, h0, ih]
    | some r =>
      obtain ⟨-, -, hp, hnz, -⟩ := lineResource_some hl
      rw [hp] at hnz
      simp only [List.filterMap_cons, hl, List.map_cons, List.filter_cons, hp]
      rw [if_pos (by simpa using hnz), ih]

theorem hexDigit_facts {c : Char} (h : specIsHexDigit c = true) :
    digitValue c = specHexDigit c ∧ digitValue c < 16 ∧ c ≠ ' ' ∧ c ≠ NUL := by
  have hsp : c ≠ ' ' := by rintro rfl; exact absurd h (by decide)
  have hnul : c ≠ NUL := by rintro rfl; exact absurd h (by decide)
  unfold specIsHexDigit at h
  simp only [Bool.or_eq_true, Bool.and_eq_true, decide_eq_true_eq] at h
  refine ⟨?_, ?_, hsp, hnul⟩
  · unfold digitValue isDigit specHexDigit
    simp only [Bool.and_eq_true, decide_eq_true_eq]
    split_ifs <;> omega
  · unfold digitValue isDigit
    simp only [Bool.and_eq_true, decide_eq_true_eq]
    split_ifs <;> omega

theorem not_hexDigit_facts {c : Char} (h : specIsHexDigit c = false) : 16 ≤ digitValue c := by
  unfold digitValue isDigit
  unfold specIsHexDigit at h
  simp only [Bool.or_eq_false_iff, Bool.and_eq_false_iff, decide_eq_false_iff_not] at h
  simp only [Bool.and_eq_true, decide_eq_true_eq]
  split_ifs <;> omega

theorem accumDigits_hex (digits rest : List Char) (acc : Nat)
    (hd : ∀ x ∈ digits, specIsHexDigit x = true)
    (hr : ∀ c, rest.head? = some c → specIsHexDigit c = false) :
    accumDigits 16 acc (digits ++ rest)
      = digits.foldl (fun a c => a * 16 + specHexDigit c) acc := by
  induction digits generalizing acc with
  | nil =>
    cases rest with
    | nil => rfl
    | cons r rs =>
      have := not_hexDigit_facts (hr r rfl)
      simp only [List.nil_append, accumDigits, List.foldl_nil]
      rw [if_neg (by omega)]
  | cons x xs ih =>
    have hx := hexDigit_facts (hd x (List.mem_cons_self _ _))
    simp only [List.cons_append, accumDigits, List.foldl_cons]
    rw [if_pos hx.2.1, hx.1]
    exact ih _ (fun y hy => hd y (List.mem_cons_of_mem _ hy))

theorem strtol_hex (digits rest : List Char) (hne : digits ≠ [])
    (hd : ∀ x ∈ digits, specIsHexDigit x = true)
    (hr : ∀ c, rest.head? = some c → specIsHexDigit c = false)
    (hfit : specHex digits < 2 ^ 63) :
    strtol ('0' :: 'x' :: (digits ++ rest)) = specHex digits := by
  cases digits with
  | nil => exact absurd rfl hne
  | cons h t =>
    have hh := hexDigit_facts (hd h (List.mem_cons_self _ _))
    have hbase : detectBase ('0' :: 'x' :: (h :: t ++ rest)) = (16, h :: t ++ rest) := by
      simp [detectBase, hh.2.1]
    rw [strtol_head_digit (by decide) hbase, accumDigits_hex _ _ _ hd hr]
    have : specHex (h :: t) = List.foldl (fun a c => a * 16 + specHexDigit c) 0 (h :: t) := rfl
    rw [← this, if_neg (by omega)]

theorem strtol_skip_space (s : List Char) : strtol (' ' :: s) = strtol s := by
  have : (' ' :: s).dropWhile isspace = s.dropWhile isspace := by
    simp [List.dropWhile, isspace]
  unfold strtol
  rw [this]

theorem lineResource_hex (start last flags : List Char)
    (hs : start ≠ []) (hl : last ≠ [])
    (hsd : ∀ x ∈ start, specIsHexDigit x = true) (hld : ∀ x ∈ last, specIsHexDigit x = true)
    (hsfit : specHex start < 2 ^ 63) (hlfit : specHex last < 2 ^ 63)
    (hnz : specHex start ≠ 0) :
    lineResource ('0' :: 'x' :: (start ++ ' ' :: '0' :: 'x' :: (last ++ ' ' :: flags)))
      = some { baseAddr := 0
               size := toU64 ((specHex last : Int) - specHex start + 1)
               physAddr := specHex start } := by
  have hsp : ∀ c, (' ' :: flags).head? = some c → specIsHexDigit c = false := by
    intro c hc
    simp only [List.head?_cons, Option.some.injEq] at hc
    subst hc; decide
  have hsp2 : ∀ c, (' ' :: '0' :: 'x' :: (last ++ ' ' :: flags)).head? = some c →
      specIsHexDigit c = false := by
    intro c hc
    simp only [List.head?_cons, Option.some.injEq] at hc
    subst hc; decide
  have h1 : strtoll ('0' :: 'x' :: (start ++ ' ' :: '0' :: 'x' :: (last ++ ' ' :: flags)))
      = specHex start := strtol_hex start _ hs hsd hsp2 hsfit
  have h2 : strtoll (' ' :: '0' :: 'x' :: (last ++ ' ' :: flags)) = specHex last := by
    unfold strtoll
    rw [strtol_skip_space]
    exact strtol_hex last _ hl hld hsp hlfit
  have hpre : NUL ∉ '0' :: 'x' :: start ∧ ' ' ∉ '0' :: 'x' :: start := by
    constructor
    · intro hm
      simp only [List.mem_cons] at hm
      rcases hm with e | e | e
      · exact absurd e (by decide)
      · exact absurd e (by decide)
      · exact (hexDigit_facts (hsd _ e)).2.2.2 rfl
    · intro hm
      simp only [List.mem_cons] at hm
      rcases hm with e | e | e
      · exact absurd e (by decide)
      · exact absurd e (by decide)
      · exact (hexDigit_facts (hsd _ e)).2.2.1 rfl
  have h3 : strchr ('0' :: 'x' :: (start ++ ' ' :: '0' :: 'x' :: (last ++ ' ' :: flags))) ' '
      = some (' ' :: '0' :: 'x' :: (last ++ ' ' :: flags)) := by
    have := strchr_append (c := ' ') ('0' :: 'x' :: (last ++ ' ' :: flags)) hpre.1 hpre.2
    simpa using this
  unfold lineResource
  simp only [h1, h3, Option.getD_some, h2]
  rw [if_neg (by exact_mod_cast hnz)]
  have : toU64 (specHex start : Int) = specHex start := toU64_of_lt (by omega)
  rw [this]

/-- The two lines of the example with their fields 0x-prefixed, as sysfs
writes a resource file. -/
theorem exampleFile_fields :
    ∀ line ∈ ["0x0 0x0 0x204".toList, "0x100 0x1ff 0x200".toList],
      ∃ pre rest : List Char, line = pre ++ ' ' :: rest ∧ NUL ∉ pre := by
  intro line hl
  simp only [List.mem_cons, List.mem_singleton, List.not_mem_nil, or_false] at hl
  rcases hl with rfl | rfl
  · exact ⟨"0x0".toList, "0x0 0x204".toList, by decide, by decide⟩
  · exact ⟨"0x100".toList, "0x1ff 0x200".toList, by decide, by decide⟩

/-- C9 (counterexample): the resource file with the lines `0 0 204` and
`100 1ff 200` yields one Resource with physAddr 100 (decimal) and size
1 - 100 + 1 modulo 2^64, not the Resource with physAddr 0x100 and size
0x100. -/
theorem getResourceList_unprefixed_counterexample :
    PciDevice.getResourceList (some ["0 0 204".toList, "100 1ff 200".toList])
      = some (.ok [{ baseAddr := 0, size := 2 ^ 64 - 98, physAddr := 100 }]) ∧
    PciDevice.getResourceList (some ["0 0 204".toList, "100 1ff 200".toList])
      ≠ some (.ok [{ baseAddr := 0, size := 0x100, physAddr := 0x100 }]) := by
  decide

/-- C9 (amended): `getResourceList` reads the start and end fields of every
line with `strtoll` in base 0, hexadecimal when the field is 0x-prefixed, and
gives each retained Resource size = end - start + 1 (modulo 2^64): a line
`0x<start> 0x<end> <flags>` with a non-zero start stands for the Resource with
physAddr = start and that size, and a resource file with the two lines
`0x0 0x0 0x204` and `0x100 0x1ff 0x200` yields exactly one Resource, with
physAddr = 0x100 and size = 0x100. -/
theorem getResourceList_reads_base0 :
    PciDevice.getResourceList (some ["0x0 0x0 0x204".toList, "0x100 0x1ff 0x200".toList])
      = some (.ok [{ baseAddr := 0, size := 0x100, physAddr := 0x100 }]) ∧
    (∀ start last flags : List Char, start ≠ [] → last ≠ [] →
      (∀ x ∈ start, specIsHexDigit x = true) → (∀ x ∈ last, specIsHexDigit x = true) →
      specHex start < 2 ^ 63 → specHex last < 2 ^ 63 → specHex start ≠ 0 →
      PciDevice.getResourceList
          (some ['0' :: 'x' :: (start ++ ' ' :: '0' :: 'x' :: (last ++ ' ' :: flags))])
        = some (.ok [{ baseAddr := 0
                       size := toU64 ((specHex last : Int) - specHex start + 1)
                       physAddr := specHex start }])) ∧
    (∀ lines : List (List Char),
      (∀ line ∈ lines, ∃ pre rest : List Char, line = pre ++ ' ' :: rest ∧ NUL ∉ pre) →
      ∀ rs, PciDevice.getResourceList (some lines) = some (.ok rs) →
        ∀ r ∈ rs, ∃ line ∈ lines, r.physAddr = toU64 (strtoll line) ∧
          r.size = toU64 (strtoll ((strchr line ' ').getD []) - strtoll line + 1)) := by
  refine ⟨by decide, ?_, ?_⟩
  · intro start last flags hs hl hsd hld hsfit hlfit hnz
    have hline := lineResource_hex start last flags hs hl hsd hld hsfit hlfit hnz
    have hform : ∀ line ∈ ['0' :: 'x' :: (start ++ ' ' :: '0' :: 'x' :: (last ++ ' ' :: flags))],
        ∃ pre rest : List Char, line = pre ++ ' ' :: rest ∧ NUL ∉ pre := by
      intro line hmem
      simp only [List.mem_singleton] at hmem
      refine ⟨'0' :: 'x' :: start, '0' :: 'x' :: (last ++ ' ' :: flags), by simp [hmem], ?_⟩
      intro hm
      simp only [List.mem_cons] at hm
      rcases hm with e | e | e
      · exact absurd e (by decide)
      · exact absurd e (by decide)
      · exact (hexDigit_facts (hsd _ e)).2.2.2 rfl
    rw [getResourceList_eq _ hform]
    simp [List.filterMap_cons, hline]
  · intro lines hform rs hrs r hr
    rw [getResourceList_eq _ hform] at hrs
    split at hrs
    · simp at hrs
    · simp only [Option.some.injEq, Except.ok.injEq] at hrs
      subst hrs
      obtain ⟨line, hmem, hline⟩ := List.mem_filterMap.mp hr
      obtain ⟨-, -, hp, -, hsz⟩ := lineResource_some hline
      exact ⟨line, hmem, hp, hsz⟩

/-- C10: for every resource file whose lines each hold a space, with no NUL
before it (as every line of the form `<start> <end> <flags>` does):
`getResourceList` returns, in file order, exactly one Resource per line whose
parsed start is non-zero, each with `baseAddr` null and `physAddr` non-zero,
and it fails with NoMappableResources exactly when no line has a non-zero
start (the file with no lines included); it never returns an empty list. -/
theorem getResourceList_retains_nonzero (lines : List (List Char))
    (h : ∀ line ∈ lines, ∃ pre rest : List Char, line = pre ++ ' ' :: rest ∧ NUL ∉ pre) :
    (PciDevice.getResourceList (some lines) =
      some (if lines.filterMap lineResource = [] then .error .NoMappableResources
            else .ok (lines.filterMap lineResource))) ∧
    ((lines.filterMap lineResource).map (fun r => r.physAddr)
      = (lines.map (fun line => toU64 (strtoll line))).filter (fun a => decide (a ≠ 0))) ∧
    (∀ r ∈ lines.filterMap lineResource, r.baseAddr = 0 ∧ r.physAddr ≠ 0) ∧
    (PciDevice.getResourceList (some lines) = some (.error .NoMappableResources)
      ↔ ∀ line ∈ lines, strtoll line = 0) ∧
    PciDevice.getResourceList (some lines) ≠ some (.ok []) := by
  have hnone : lines.filterMap lineResource = [] ↔ ∀ line ∈ lines, strtoll line = 0 := by
    rw [List.filterMap_eq_nil_iff]
    exact forall₂_congr (fun line _ => lineResource_eq_none)
  refine ⟨getResourceList_eq lines h, filterMap_physAddr lines, ?_, ?_, ?_⟩
  · intro r hr
    obtain ⟨line, -, hline⟩ := List.mem_filterMap.mp hr
    obtain ⟨-, hb, -, hp, -⟩ := lineResource_some hline
    exact ⟨hb, hp⟩
  · rw [getResourceList_eq lines h, ← hnone]
    split
    · next he => simp [he]
    · next hne => simp [hne]
  · rw [getResourceList_eq lines h]
    split
    · simp
    · next hne =>
      intro e
      simp only [Option.some.injEq, Except.ok.injEq] at e
      exact hne e

/-- Witness of `getResourceList_retains_nonzero`: the file with the lines
`0x0 0x0 0x204` and `0x100 0x1ff 0x200` does not fail with
NoMappableResources, its second line having a non-zero start. -/
theorem getResourceList_retains_nonzero_witness :
    ¬ (PciDevice.getResourceList (some ["0x0 0x0 0x204".toList, "0x100 0x1ff 0x200".toList])
        = some (.error .NoMappableResources)) ∧
    PciDevice.getResourceList (some ["0x0 0x0 0x204".toList, "0x100 0x1ff 0x200".toList])
      ≠ some (.ok []) :=
  ⟨fun e => absurd
      (((getResourceList_retains_nonzero _ exampleFile_fields).2.2.2.1.mp e)
        "0x100 0x1ff 0x200".toList (by simp))
      (by decide),
   (getResourceList_retains_nonzero _ exampleFile_fields).2.2.2.2⟩

/-! ## mapResources -/

theorem unmapAll_trace (k : Kernel) (rs : List resource_t) :
    (unmapAll k rs).trace = k.trace ++ unmapEvents rs := by
  induction rs generalizing k with
  | nil => simp [unmapAll, unmapEvents]
  | cons r rest ih =>
    unfold unmapAll
    by_cases hr : r.baseAddr ≠ 0
    · rw [if_pos hr, ih]
      simp [unmapEvents, List.filter_cons, hr, Kernel.munmap]
    · rw [if_neg hr, ih]
      simp [unmapEvents, List.filter_cons, hr]

theorem unmapAll_live (k : Kernel) (rs : List resource_t) :
    (unmapAll k rs).live = liveAfterUnmap k.live rs := by
  induction rs generalizing k with
  | nil => simp [unmapAll, liveAfterUnmap]
  | cons r rest ih =>
    unfold unmapAll
    by_cases hr : r.baseAddr ≠ 0
    · rw [if_pos hr, ih]
      simp [liveAfterUnmap, List.filter_cons, hr, Kernel.munmap]
    · rw [if_neg hr, ih]
      simp [liveAfterUnmap, List.filter_cons, hr]

theorem mapLoop_prefix (fd : Int) (pre : List resource_t) :
    ∀ (ptrs : List Nat) (done todo : List resource_t) (k : Kernel) (script : List (Option Nat)),
      ptrs.length = pre.length → k.mmapScript = ptrs.map some ++ script →
      mapLoop fd done (pre ++ todo) k
        = mapLoop fd (done ++ fillBase pre ptrs) todo
            { devMem := k.devMem, mmapScript := script
              live := k.live ++ List.zipWith (fun r p => Mapping.mk p r.size) pre ptrs
              trace := k.trace ++ mapEvents fd pre ptrs } := by
  induction pre with
  | nil =>
    intro ptrs done todo k script hlen hs
    have hp : ptrs = [] := List.length_eq_zero.mp hlen
    subst hp
    simp only [List.map_nil, List.nil_append] at hs
    simp [fillBase, mapEvents, ← hs]
  | cons r rest ih =>
    intro ptrs done todo k script hlen hs
    cases ptrs with
    | nil => simp at hlen
    | cons p ps =>
      simp only [List.length_cons, Nat.add_right_cancel_iff] at hlen
      simp only [List.map_cons, List.cons_append] at hs
      rw [List.cons_append, mapLoop]
      simp only [Kernel.mmap, hs]
      rw [ih ps _ todo _ script hlen rfl]
      simp [fillBase, mapEvents, List.append_assoc]

theorem mmap_fails (k : Kernel) (length : Nat) (fd : Int) (offset : Nat)
    (h : ∀ p, k.mmapScript.head? ≠ some (some p)) :
    (k.mmap length fd offset).1 = none ∧ (k.mmap length fd offset).2.live = k.live ∧
    (k.mmap length fd offset).2.trace = k.trace ++ [Syscall.mmap length fd offset none] := by
  unfold Kernel.mmap
  split
  · next p script hs => exact absurd (by simp [hs]) (h p)
  · exact ⟨rfl, rfl, rfl⟩
  · exact ⟨rfl, rfl, rfl⟩

theorem mapLoop_fails (fd : Int) (done : List resource_t) (bar : resource_t)
    (post : List resource_t) (k : Kernel) (h : ∀ p, k.mmapScript.head? ≠ some (some p)) :
    (mapLoop fd done (bar :: post) k).1 = .error (.MappingFailed bar.physAddr bar.size) ∧
    (mapLoop fd done (bar :: post) k).2.1 = { resource_ := [] } ∧
    (mapLoop fd done (bar :: post) k).2.2.trace
      = k.trace ++ [Syscall.mmap bar.size fd bar.physAddr none]
          ++ unmapEvents (done ++ bar :: post) ∧
    (mapLoop fd done (bar :: post) k).2.2.live = liveAfterUnmap k.live (done ++ bar :: post) := by
  obtain ⟨h1, h2, h3⟩ := mmap_fails k bar.size fd bar.physAddr h
  rw [mapLoop]
  generalize k.mmap bar.size fd bar.physAddr = res at h1 h2 h3
  obtain ⟨r, k1⟩ := res
  simp only at h1 h2 h3
  subst h1
  simp only [PciDevice.close, unmapAll_trace, unmapAll_live, h2, h3]
  exact ⟨trivial, trivial, trivial, trivial⟩

theorem erase_fold_perm {α : Type} [DecidableEq α] (added : List α) :
    ∀ l1 l2 : List α, l1.Perm (l2 ++ added) →
      (added.foldl (fun l a => l.erase a) l1).Perm l2 := by
  induction added with
  | nil => intro l1 l2 h; simpa using h
  | cons a rest ih =>
    intro l1 l2 h
    simp only [List.foldl_cons]
    apply ih
    have h1 : (l1.erase a).Perm ((l2 ++ a :: rest).erase a) := h.erase a
    have h2 : (l2 ++ a :: rest).Perm (a :: (l2 ++ rest)) := List.perm_middle
    have h3 : ((l2 ++ a :: rest).erase a).Perm ((a :: (l2 ++ rest)).erase a) := h2.erase a
    rw [List.erase_cons_head] at h3
    exact h1.trans h3

theorem fillBase_nonNull (pre : List resource_t) :
    ∀ ptrs : List Nat, ptrs.length = pre.length → (∀ p ∈ ptrs, p ≠ 0) →
      (fillBase pre ptrs).filter (fun r => decide (r.baseAddr ≠ 0)) = fillBase pre ptrs := by
  induction pre with
  | nil => intro ptrs _ _; simp [fillBase]
  | cons r rest ih =>
    intro ptrs hlen hp
    cases ptrs with
    | nil => simp [fillBase]
    | cons p ps =>
      simp only [List.length_cons, Nat.add_right_cancel_iff] at hlen
      have hp0 : p ≠ 0 := hp p (List.mem_cons_self _ _)
      have := ih ps hlen (fun q hq => hp q (List.mem_cons_of_mem _ hq))
      simp only [fillBase, List.zipWith_cons_cons] at this ⊢
      rw [List.filter_cons, if_pos (by simpa using hp0), this]

theorem filter_null (rs : List resource_t) (h : ∀ r ∈ rs, r.baseAddr = 0) :
    rs.filter (fun r => decide (r.baseAddr ≠ 0)) = [] := by
  rw [List.filter_eq_nil_iff]
  intro r hr
  simp [h r hr]

theorem fillBase_events (pre : List resource_t) :
    ∀ ptrs : List Nat,
      (fillBase pre ptrs).map (fun r => Syscall.munmap r.baseAddr r.size)
        = List.zipWith (fun r p => Syscall.munmap p r.size) pre ptrs ∧
      (fillBase pre ptrs).map (fun r => Mapping.mk r.baseAddr r.size)
        = List.zipWith (fun r p => Mapping.mk p r.size) pre ptrs := by
  induction pre with
  | nil => intro ptrs; simp [fillBase]
  | cons r rest ih =>
    intro ptrs
    cases ptrs with
    | nil => simp [fillBase]
    | cons p ps =>
      have := ih ps
      simp only [fillBase, List.zipWith_cons_cons, List.map_cons] at this ⊢
      exact ⟨by rw [this.1], by rw [this.2]⟩

theorem unmapEvents_append (xs ys : List resource_t) :
    unmapEvents (xs ++ ys) = unmapEvents xs ++ unmapEvents ys := by
  simp [unmapEvents, List.filter_append]

theorem openDevMem_fields (k : Kernel) :
    k.openDevMem.1 = k.devMem ∧ k.openDevMem.2.mmapScript = k.mmapScript ∧
    k.openDevMem.2.live = k.live ∧ k.openDevMem.2.devMem = k.devMem ∧
    k.openDevMem.2.trace = k.trace ++ [Syscall.openDevMem k.devMem] :=
  ⟨rfl, rfl, rfl, rfl, rfl⟩

/-- C2: when `/dev/mem` opens, the `mmap` calls for the first `k` resources
(`pre`, mapped at the non-null addresses `ptrs`) succeed and the `mmap` call
for resource `k` (`bar`) fails, `mapResources` fails with MappingFailed
carrying the `physAddr` and `size` of `bar` and leaves the device with an
empty resource list.  Its system calls are: the open, the `k` successful
`mmap` calls, the failing one, one `munmap` for each of the `k` regions it
mapped, the `munmap` calls for the entries from `bar` on that were not null on
entry, and the close of the descriptor.  When no entry was mapped on entry,
the calls of the last kind are none and the mappings in place afterwards are
those in place before the call: none, if none was. -/
theorem mapResources_rollback (dev : PciDevice) (k : Kernel) (pre post : List resource_t)
    (bar : resource_t) (ptrs : List Nat) (script : List (Option Nat))
    (hfd : 0 ≤ k.devMem)
    (hres : dev.resource_ = pre ++ bar :: post)
    (hlen : ptrs.length = pre.length) (hptr : ∀ p ∈ ptrs, p ≠ 0)
    (hscript : k.mmapScript = ptrs.map some ++ script)
    (hfail : ∀ p, script.head? ≠ some (some p)) :
    (dev.mapResources k).1 = .error (.MappingFailed bar.physAddr bar.size) ∧
    (dev.mapResources k).2.1.resource_ = [] ∧
    (dev.mapResources k).2.2.trace
      = k.trace ++ [Syscall.openDevMem k.devMem] ++ mapEvents k.devMem pre ptrs
          ++ [Syscall.mmap bar.size k.devMem bar.physAddr none]
          ++ List.zipWith (fun r p => Syscall.munmap p r.size) pre ptrs
          ++ unmapEvents (bar :: post) ++ [Syscall.closeFd k.devMem] ∧
    ((∀ r ∈ dev.resource_, r.baseAddr = 0) →
      unmapEvents (bar :: post) = [] ∧
      (dev.mapResources k).2.2.live.Perm k.live ∧
      (k.live = [] → (dev.mapResources k).2.2.live = [])) := by
  obtain ⟨o1, o2, o3, o4, o5⟩ := openDevMem_fields k
  have hnot : ¬ k.devMem < 0 := by omega
  have hne : k.devMem ≠ -1 := by omega
  have hloop := mapLoop_prefix k.devMem pre ptrs [] (bar :: post) k.openDevMem.2 script hlen
    (o2.trans hscript)
  rw [o3, o4, o5, List.nil_append] at hloop
  obtain ⟨f1, f2, f3, f4⟩ := mapLoop_fails k.devMem (fillBase pre ptrs) bar post
    { devMem := k.devMem, mmapScript := script
      live := k.live ++ List.zipWith (fun r p => Mapping.mk p r.size) pre ptrs
      trace := k.trace ++ [Syscall.openDevMem k.devMem] ++ mapEvents k.devMem pre ptrs } hfail
  rw [← hloop] at f1 f2 f3 f4
  have hrun : dev.mapResources k
      = ((mapLoop k.devMem [] (pre ++ bar :: post) k.openDevMem.2).1,
         (mapLoop k.devMem [] (pre ++ bar :: post) k.openDevMem.2).2.1,
         (mapLoop k.devMem [] (pre ++ bar :: post) k.openDevMem.2).2.2.closeFd k.devMem) := by
    unfold PciDevice.mapResources
    simp only [o1, hres, if_neg hnot, FileDes.destroy, if_pos hne]
  have hev : unmapEvents (fillBase pre ptrs)
      = List.zipWith (fun r p => Syscall.munmap p r.size) pre ptrs := by
    unfold unmapEvents
    rw [fillBase_nonNull pre ptrs hlen hptr, (fillBase_events pre ptrs).1]
  rw [hrun]
  refine ⟨f1, by rw [f2], ?_, ?_⟩
  · simp only [Kernel.closeFd, f3, unmapEvents_append, hev, List.append_assoc]
  · intro hentry
    have hnull : ∀ r ∈ bar :: post, r.baseAddr = 0 := fun r hr =>
      hentry r (by rw [hres]; exact List.mem_append_right _ hr)
    have hlive : (mapLoop k.devMem [] (pre ++ bar :: post) k.openDevMem.2).2.2.live
        = (List.zipWith (fun r p => Mapping.mk p r.size) pre ptrs).foldl (fun l a => l.erase a)
            (k.live ++ List.zipWith (fun r p => Mapping.mk p r.size) pre ptrs) := by
      rw [f4]
      unfold liveAfterUnmap
      rw [List.filter_append, filter_null _ hnull, List.append_nil,
        fillBase_nonNull pre ptrs hlen hptr, ← (fillBase_events pre ptrs).2, List.foldl_map]
    have hperm : (mapLoop k.devMem [] (pre ++ bar :: post) k.openDevMem.2).2.2.live.Perm k.live := by
      rw [hlive]
      exact erase_fold_perm _ _ _ (List.Perm.refl _)
    refine ⟨?_, hperm, fun hk => ?_⟩
    · unfold unmapEvents
      rw [filter_null _ hnull]
      rfl
    · have := hperm
      rw [hk] at this
      exact List.Perm.eq_nil this

/-- Witness of `mapResources_rollback`, two resources where mapping the second
fails: `mapResources` reports MappingFailed with the address and size of the
second resource, the resource list is empty and no mapping is in place. -/
theorem mapResources_rollback_witness :
    (twoBars.mapResources secondMapFails).1 = .error (.MappingFailed 0xfe100000 0x2000) ∧
    (twoBars.mapResources secondMapFails).2.1.resource_ = [] ∧
    (twoBars.mapResources secondMapFails).2.2.live = [] ∧
    (twoBars.mapResources secondMapFails).2.2.trace
      = [Syscall.openDevMem 3, Syscall.mmap 0x1000 3 0xfe000000 (some 0x7f0000001000),
         Syscall.mmap 0x2000 3 0xfe100000 none, Syscall.munmap 0x7f0000001000 0x1000,
         Syscall.closeFd 3] :=
  have h := mapResources_rollback twoBars secondMapFails
    [{ baseAddr := 0, size := 0x1000, physAddr := 0xfe000000 }] []
    { baseAddr := 0, size := 0x2000, physAddr := 0xfe100000 } [0x7f0000001000] [none]
    (by decide) rfl rfl (by decide) rfl (by intro p; simp)
  ⟨h.1, h.2.1, (h.2.2.2 (by decide)).2.2 rfl, h.2.2.1⟩

/-! ## measure_bw -/

theorem or_shift_eq (hi lo : Nat) (hlo : lo < 2 ^ 32) : (hi <<< 32) ||| lo = hi * 2 ^ 32 + lo := by
  rw [Nat.shiftLeft_eq, Nat.mul_comm, ← Nat.mul_add_lt_is_or hlo]

theorem split_address (x : Nat) (hx : x < 2 ^ 64) :
    toU32 (HI32 x) = x / 2 ^ 32 ∧ toU32 (LO32 x) = x % 2 ^ 32 ∧
    ((x / 2 ^ 32) <<< 32) ||| (x % 2 ^ 32) = x := by
  have hmask : (0xFFFFFFFF : Nat) = 2 ^ 32 - 1 := by norm_num
  have hlo : x % 2 ^ 32 < 2 ^ 32 := Nat.mod_lt _ (by norm_num)
  refine ⟨?_, ?_, ?_⟩
  · unfold toU32 HI32
    rw [hmask, Nat.and_pow_two_sub_one_eq_mod, Nat.shiftRight_eq_div_pow]
    omega
  · unfold toU32 LO32
    rw [hmask, Nat.and_pow_two_sub_one_eq_mod]
    omega
  · rw [or_shift_eq _ _ hlo]
    omega

theorem sim_load_ctl (ctl : Nat) (regs : Nat → Nat) (busy : List Nat)
    (stores : List (Nat × Nat)) :
    simBus.load32 { ctlStat := ctl, regs := regs, busy := busy, stores := stores } ctl
      = match busy with
        | [] => (0, { ctlStat := ctl, regs := regs, busy := [], stores := stores })
        | v :: rest => (v, { ctlStat := ctl, regs := regs, busy := rest, stores := stores }) := by
  cases busy <;> simp [simBus, SimEngine.load32]

theorem waitIdle_sim (engine : Nat) :
    ∀ (fuel : Nat) (s : SimEngine), s.ctlStat = regAddr engine REG_CTL_STAT →
      s.busy.length < fuel →
      ∃ final, waitIdle simBus engine fuel s = some final ∧ final.regs = s.regs ∧
        final.stores = s.stores ∧ final.ctlStat = s.ctlStat := by
  intro fuel
  induction fuel with
  | zero => intro s _ h; omega
  | succ n ih =>
    intro s hctl hlen
    obtain ⟨ctl, regs, busy, stores⟩ := s
    simp only at hctl hlen
    subst hctl
    unfold waitIdle
    rw [sim_load_ctl]
    cases busy with
    | nil =>
      have h0 : toU32 0 = 0 := by decide
      simp only [h0, ne_eq, not_true_eq_false, if_false]
      exact ⟨_, rfl, rfl, rfl, rfl⟩
    | cons v rest =>
      simp only [List.length_cons] at hlen
      obtain ⟨final, hf, h1, h2, h3⟩ := ih
        { ctlStat := regAddr engine REG_CTL_STAT, regs := regs, busy := rest, stores := stores }
        rfl (by simpa using by omega)
      simp only
      split
      · exact ⟨final, hf, h1, h2, h3⟩
      · exact ⟨_, rfl, rfl, rfl, rfl⟩

theorem waitIdle_sim_busy (engine : Nat) :
    ∀ (fuel : Nat) (s : SimEngine), s.ctlStat = regAddr engine REG_CTL_STAT →
      (∀ v ∈ s.busy, toU32 v ≠ 0) → fuel ≤ s.busy.length →
      waitIdle simBus engine fuel s = none := by
  intro fuel
  induction fuel with
  | zero => intro s _ _ _; rfl
  | succ n ih =>
    intro s hctl hbusy hlen
    obtain ⟨ctl, regs, busy, stores⟩ := s
    simp only at hctl hlen hbusy
    subst hctl
    unfold waitIdle
    rw [sim_load_ctl]
    cases busy with
    | nil => simp at hlen
    | cons v rest =>
      simp only [List.length_cons, Nat.add_le_add_iff_right] at hlen
      simp only
      rw [if_pos (hbusy v (List.mem_cons_self _ _))]
      exact ih _ rfl (fun w hw => hbusy w (List.mem_cons_of_mem _ hw)) hlen

theorem sim_load_other (s : SimEngine) (addr : Nat) (h : addr ≠ s.ctlStat) :
    SimEngine.load32 s addr = (s.regs addr, s) := by
  simp [SimEngine.load32, h]

theorem measure_sim (direction : Direction) (sim : SimEngine)
    (baseAddr deviceAddress axiAddress blockSize blockCount fuel : Nat)
    (hctl : sim.ctlStat = regAddr (baseAddr + deviceAddress) REG_CTL_STAT)
    (hfuel : sim.busy.length < fuel) :
    ∃ final : SimEngine,
      measure direction simBus baseAddr fuel sim deviceAddress axiAddress blockSize blockCount
        = some
            ((((toU32 (sim.regs (regAddr (baseAddr + deviceAddress) (resultRegs direction).1)))
                  <<< 32) % 2 ^ 64)
              ||| toU32 (sim.regs (regAddr (baseAddr + deviceAddress) (resultRegs direction).2)),
             final) ∧
      final.stores = sim.stores ++
        [(regAddr (baseAddr + deviceAddress) (addrRegs direction).1, toU32 (HI32 axiAddress)),
         (regAddr (baseAddr + deviceAddress) (addrRegs direction).2, toU32 (LO32 axiAddress)),
         (regAddr (baseAddr + deviceAddress) REG_BLK_SIZE, toU32 blockSize),
         (regAddr (baseAddr + deviceAddress) REG_COUNT, toU32 blockCount),
         (regAddr (baseAddr + deviceAddress) REG_CTL_STAT, toU32 (startCode direction))] ∧
      final.regs (regAddr (baseAddr + deviceAddress) (addrRegs direction).1)
        = toU32 (HI32 axiAddress) ∧
      final.regs (regAddr (baseAddr + deviceAddress) (addrRegs direction).2)
        = toU32 (LO32 axiAddress) ∧
      final.regs (regAddr (baseAddr + deviceAddress) REG_BLK_SIZE) = toU32 blockSize ∧
      final.regs (regAddr (baseAddr + deviceAddress) REG_COUNT) = toU32 blockCount ∧
      (∀ i ∈ untouchedRegs direction,
        final.regs (regAddr (baseAddr + deviceAddress) i)
          = sim.regs (regAddr (baseAddr + deviceAddress) i)) := by
  obtain ⟨ctl, regs, busy, stores⟩ := sim
  simp only at hctl hfuel
  subst hctl
  cases direction
  · obtain ⟨final, hf, h1, h2, h3⟩ := waitIdle_sim (baseAddr + deviceAddress) fuel
      (simBus.store32 (simBus.store32 (simBus.store32 (simBus.store32 (simBus.store32
        { ctlStat := regAddr (baseAddr + deviceAddress) REG_CTL_STAT, regs := regs,
          busy := busy, stores := stores }
        (regAddr (baseAddr + deviceAddress) REG_RADDR_H) (toU32 (HI32 axiAddress)))
        (regAddr (baseAddr + deviceAddress) REG_RADDR_L) (toU32 (LO32 axiAddress)))
        (regAddr (baseAddr + deviceAddress) REG_BLK_SIZE) (toU32 blockSize))
        (regAddr (baseAddr + deviceAddress) REG_COUNT) (toU32 blockCount))
        (regAddr (baseAddr + deviceAddress) REG_CTL_STAT) (toU32 START_READ)) rfl hfuel
    have hc : final.ctlStat = regAddr (baseAddr + deviceAddress) REG_CTL_STAT := h3
    refine ⟨final, ?_, ?_, ?_⟩
    · simp only [measure, measureReadBandwidth, hf, resultRegs]
      simp only [simBus]
      rw [sim_load_other final _ (by rw [hc]; simp [regAddr, REG_RRESULT_H, REG_CTL_STAT])]
      simp only
      rw [sim_load_other final _ (by rw [hc]; simp [regAddr, REG_RRESULT_L, REG_CTL_STAT])]
      simp only [h1]
      simp [simBus, SimEngine.store32, regAddr, REG_RRESULT_H, REG_RRESULT_L, REG_CTL_STAT,
        REG_RADDR_H, REG_RADDR_L, REG_BLK_SIZE, REG_COUNT]
    · rw [h2]
      simp [simBus, SimEngine.store32, addrRegs, startCode]
    · rw [h1]
      simp [simBus, SimEngine.store32, regAddr, REG_RRESULT_H, REG_RRESULT_L, REG_CTL_STAT,
        REG_RADDR_H, REG_RADDR_L, REG_BLK_SIZE, REG_COUNT, REG_WADDR_H, REG_WADDR_L,
        REG_WRESULT_H, REG_WRESULT_L, addrRegs, untouchedRegs]
  · obtain ⟨final, hf, h1, h2, h3⟩ := waitIdle_sim (baseAddr + deviceAddress) fuel
      (simBus.store32 (simBus.store32 (simBus.store32 (simBus.store32 (simBus.store32
        { ctlStat := regAddr (baseAddr + deviceAddress) REG_CTL_STAT, regs := regs,
          busy := busy, stores := stores }
        (regAddr (baseAddr + deviceAddress) REG_WADDR_H) (toU32 (HI32 axiAddress)))
        (regAddr (baseAddr + deviceAddress) REG_WADDR_L) (toU32 (LO32 axiAddress)))
        (regAddr (baseAddr + deviceAddress) REG_BLK_SIZE) (toU32 blockSize))
        (regAddr (baseAddr + deviceAddress) REG_COUNT) (toU32 blockCount))
        (regAddr (baseAddr + deviceAddress) REG_CTL_STAT) (toU32 START_WRITE)) rfl hfuel
    have hc : final.ctlStat = regAddr (baseAddr + deviceAddress) REG_CTL_STAT := h3
    refine ⟨final, ?_, ?_, ?_⟩
    · simp only [measure, measureWriteBandwidth, hf, resultRegs]
      simp only [simBus]
      rw [sim_load_other final _ (by rw [hc]; simp [regAddr, REG_WRESULT_H, REG_CTL_STAT])]
      simp only
      rw [sim_load_other final _ (by rw [hc]; simp [regAddr, REG_WRESULT_L, REG_CTL_STAT])]
      simp only [h1]
      simp [simBus, SimEngine.store32, regAddr, REG_WRESULT_H, REG_WRESULT_L, REG_CTL_STAT,
        REG_WADDR_H, REG_WADDR_L, REG_BLK_SIZE, REG_COUNT]
    · rw [h2]
      simp [simBus, SimEngine.store32, addrRegs, startCode]
    · rw [h1]
      simp [simBus, SimEngine.store32, regAddr, REG_RRESULT_H, REG_RRESULT_L, REG_CTL_STAT,
        REG_RADDR_H, REG_RADDR_L, REG_BLK_SIZE, REG_COUNT, REG_WADDR_H, REG_WADDR_L,
        REG_WRESULT_H, REG_WRESULT_L, addrRegs, untouchedRegs]

theorem measure_sim_busy (direction : Direction) (sim : SimEngine)
    (baseAddr deviceAddress axiAddress blockSize blockCount fuel : Nat)
    (hctl : sim.ctlStat = regAddr (baseAddr + deviceAddress) REG_CTL_STAT)
    (hbusy : ∀ v ∈ sim.busy, toU32 v ≠ 0) (hfuel : fuel ≤ sim.busy.length) :
    measure direction simBus baseAddr fuel sim deviceAddress axiAddress blockSize blockCount
      = none := by
  have key : ∀ s : SimEngine, s.ctlStat = sim.ctlStat → s.busy = sim.busy →
      waitIdle simBus (baseAddr + deviceAddress) fuel s = none := fun s h1 h2 =>
    waitIdle_sim_busy (baseAddr + deviceAddress) fuel s (h1.trans hctl) (h2 ▸ hbusy)
      (h2 ▸ hfuel)
  cases direction
  · simp only [measure, measureReadBandwidth]
    rw [key] <;> rfl
  · simp only [measure, measureWriteBandwidth]
    rw [key] <;> rfl

/-- C3: for each direction, every N and all 32-bit values H and L, against the
simulated register file whose CTL_STAT reads non-zero for the first N polls
and 0 from then on and whose result pair of that direction holds H and L,
`measure` returns as soon as it may poll more than N times, and returns
H * 2^32 + L, which is (H << 32) | L and a 64-bit value; with N polls or
fewer it has not returned. -/
theorem measure_returns_cycles (direction : Direction) (sim : SimEngine)
    (baseAddr deviceAddress axiAddress blockSize blockCount N H L : Nat)
    (hctl : sim.ctlStat = regAddr (baseAddr + deviceAddress) REG_CTL_STAT)
    (hN : sim.busy.length = N) (hbusy : ∀ v ∈ sim.busy, toU32 v ≠ 0)
    (hH : sim.regs (regAddr (baseAddr + deviceAddress) (resultRegs direction).1) = H)
    (hL : sim.regs (regAddr (baseAddr + deviceAddress) (resultRegs direction).2) = L)
    (hH32 : H < 2 ^ 32) (hL32 : L < 2 ^ 32) :
    (∀ fuel, N < fuel →
      (measure direction simBus baseAddr fuel sim deviceAddress axiAddress blockSize
        blockCount).map Prod.fst = some (H * 2 ^ 32 + L)) ∧
    (∀ fuel, fuel ≤ N →
      measure direction simBus baseAddr fuel sim deviceAddress axiAddress blockSize blockCount
        = none) ∧
    H * 2 ^ 32 + L = (H <<< 32) ||| L ∧ H * 2 ^ 32 + L < 2 ^ 64 := by
  refine ⟨fun fuel hfuel => ?_, fun fuel hfuel => ?_, (or_shift_eq H L hL32).symm, by omega⟩
  · obtain ⟨final, hrun, -⟩ := measure_sim direction sim baseAddr deviceAddress axiAddress
      blockSize blockCount fuel hctl (hN ▸ hfuel)
    have hh : toU32 H = H := Nat.mod_eq_of_lt hH32
    have hl : toU32 L = L := Nat.mod_eq_of_lt hL32
    have hs : (H <<< 32) % 2 ^ 64 = H <<< 32 := by
      rw [Nat.shiftLeft_eq]
      exact Nat.mod_eq_of_lt (by omega)
    rw [hrun, hH, hL, hh, hl, hs, or_shift_eq H L hL32]
    rfl
  · exact measure_sim_busy direction sim baseAddr deviceAddress axiAddress blockSize blockCount
      fuel hctl hbusy (hN ▸ hfuel)

/-- Witness of `measure_returns_cycles`: with RRESULT_H = 1 and RRESULT_L = 0
the read measurement returns 1 << 32. -/
theorem measure_returns_cycles_witness :
    (measure .Read simBus 0 4 busyThreePolls 0x1000 0x800000000 2048 524288).map Prod.fst
      = some (1 <<< 32) :=
  (measure_returns_cycles .Read busyThreePolls 0 0x1000 0x800000000 2048 524288 3 1 0
    rfl rfl (by decide) (by decide) (by decide) (by decide) (by decide)).1 4 (by decide)

/-- C4: for every 64-bit targetAddress and 32-bit burstSize and burstCount,
`measure` on the simulated register file stores, in this order and nothing
else: the high 32 bits of targetAddress in the high address register of the
direction (register 0 for Read, 2 for Write), the low 32 bits in the low one
(1 for Read, 3 for Write), burstSize in register 4, burstCount in register 5,
and last the start code (1 for Read, 2 for Write) in register 10.  The stored
halves satisfy (high << 32) | low = targetAddress; the address pair of the
other direction and the four result registers are not stored to and keep
their content. -/
theorem measure_register_writes (direction : Direction) (sim : SimEngine)
    (baseAddr deviceAddress targetAddress burstSize burstCount fuel : Nat)
    (hctl : sim.ctlStat = regAddr (baseAddr + deviceAddress) REG_CTL_STAT)
    (hfuel : sim.busy.length < fuel)
    (hT : targetAddress < 2 ^ 64) (hS : burstSize < 2 ^ 32) (hC : burstCount < 2 ^ 32) :
    ∃ (cycles : Nat) (final : SimEngine),
      measure direction simBus baseAddr fuel sim deviceAddress targetAddress burstSize
        burstCount = some (cycles, final) ∧
      final.stores = sim.stores ++
        [(regAddr (baseAddr + deviceAddress) (addrRegs direction).1, targetAddress / 2 ^ 32),
         (regAddr (baseAddr + deviceAddress) (addrRegs direction).2, targetAddress % 2 ^ 32),
         (regAddr (baseAddr + deviceAddress) 4, burstSize),
         (regAddr (baseAddr + deviceAddress) 5, burstCount),
         (regAddr (baseAddr + deviceAddress) 10, startCode direction)] ∧
      ((targetAddress / 2 ^ 32) <<< 32) ||| (targetAddress % 2 ^ 32) = targetAddress ∧
      final.regs (regAddr (baseAddr + deviceAddress) (addrRegs direction).1)
        = targetAddress / 2 ^ 32 ∧
      final.regs (regAddr (baseAddr + deviceAddress) (addrRegs direction).2)
        = targetAddress % 2 ^ 32 ∧
      final.regs (regAddr (baseAddr + deviceAddress) 4) = burstSize ∧
      final.regs (regAddr (baseAddr + deviceAddress) 5) = burstCount ∧
      (∀ i ∈ untouchedRegs direction,
        final.regs (regAddr (baseAddr + deviceAddress) i)
          = sim.regs (regAddr (baseAddr + deviceAddress) i) ∧
        ∀ w ∈ final.stores.drop sim.stores.length,
          w.1 ≠ regAddr (baseAddr + deviceAddress) i) ∧
      addrRegs .Read = (0, 1) ∧ addrRegs .Write = (2, 3) ∧
      startCode .Read = 1 ∧ startCode .Write = 2 ∧
      untouchedRegs .Read = [2, 3, 6, 7, 8, 9] ∧ untouchedRegs .Write = [0, 1, 6, 7, 8, 9] := by
  obtain ⟨final, hrun, hstores, hr1, hr2, hr3, hr4, hkeep⟩ := measure_sim direction sim baseAddr
    deviceAddress targetAddress burstSize burstCount fuel hctl hfuel
  obtain ⟨hhi, hlo, hjoin⟩ := split_address targetAddress hT
  have hs : toU32 burstSize = burstSize := Nat.mod_eq_of_lt hS
  have hc : toU32 burstCount = burstCount := Nat.mod_eq_of_lt hC
  have hstart : toU32 (startCode direction) = startCode direction := by
    cases direction <;> decide
  rw [hhi, hlo, hs, hc, hstart] at hstores
  rw [hhi] at hr1
  rw [hlo] at hr2
  rw [hs] at hr3
  rw [hc] at hr4
  refine ⟨_, final, hrun, hstores, hjoin, hr1, hr2, hr3, hr4, fun i hi => ⟨hkeep i hi, ?_⟩,
    rfl, rfl, rfl, rfl, rfl, rfl⟩
  rw [hstores, List.drop_left]
  intro w hw
  cases direction <;>
  · simp only [untouchedRegs, REG_WADDR_H, REG_WADDR_L, REG_RADDR_H, REG_RADDR_L,
      REG_RRESULT_H, REG_RRESULT_L, REG_WRESULT_H, REG_WRESULT_L, List.mem_cons,
      List.mem_singleton, List.not_mem_nil, or_false] at hi
    simp only [addrRegs, startCode, REG_WADDR_H, REG_WADDR_L, REG_RADDR_H, REG_RADDR_L,
      REG_BLK_SIZE, REG_COUNT, REG_CTL_STAT, List.mem_cons, List.mem_singleton, List.not_mem_nil, or_false] at hw
    unfold regAddr at hw ⊢
    rcases hw with rfl | rfl | rfl | rfl | rfl <;>
      rcases hi with rfl | rfl | rfl | rfl | rfl | rfl <;>
      (dsimp only; omega)

/-- Witness of `measure_register_writes`: a read measurement of 524288 bursts
of 2048 bytes at 0x800000001 stores 8, 1, 2048, 524288 and the start code 1 in
registers 0, 1, 4, 5 and 10 of the engine at 0x1000. -/
theorem measure_register_writes_witness :
    ∃ (cycles : Nat) (final : SimEngine),
      measure .Read simBus 0 4 busyThreePolls 0x1000 0x800000001 2048 524288
        = some (cycles, final) ∧
      final.stores
        = [(0x1000, 8), (0x1004, 1), (0x1010, 2048), (0x1014, 524288), (0x1028, 1)] := by
  obtain ⟨cycles, final, hrun, hstores, -⟩ := measure_register_writes .Read busyThreePolls
    0 0x1000 0x800000001 2048 524288 4 rfl (by decide) (by decide) (by decide) (by decide)
  exact ⟨cycles, final, hrun, hstores⟩

/-! ## mapResources without the privileged handle -/

theorem unmapAll_fields (k : Kernel) (rs : List resource_t) :
    (unmapAll k rs).mmapScript = k.mmapScript ∧ (unmapAll k rs).devMem = k.devMem := by
  induction rs generalizing k with
  | nil => exact ⟨rfl, rfl⟩
  | cons r rest ih =>
    unfold unmapAll
    split
    · exact ih _
    · exact ih _

theorem liveAfterUnmap_null (live : List Mapping) (rs : List resource_t)
    (h : ∀ r ∈ rs, r.baseAddr = 0) : liveAfterUnmap live rs = live := by
  unfold liveAfterUnmap
  rw [filter_null rs h]
  rfl

theorem unmapEvents_null (rs : List resource_t) (h : ∀ r ∈ rs, r.baseAddr = 0) :
    unmapEvents rs = [] := by
  unfold unmapEvents
  rw [filter_null rs h]
  rfl

theorem mapResources_refused (dev : PciDevice) (k : Kernel) (hfd : k.devMem = -1) :
    dev.mapResources k
      = (.error .PermissionDenied, { resource_ := [] }, unmapAll k.openDevMem.2 dev.resource_) := by
  have hlt : k.openDevMem.1 < 0 := by
    show k.devMem < 0
    omega
  have hm : ¬ k.openDevMem.1 ≠ -1 := by
    show ¬ k.devMem ≠ -1
    simp [hfd]
  unfold PciDevice.mapResources
  simp only [if_pos hlt, PciDevice.close, FileDes.destroy, if_neg hm]

/-- C11 (counterexample): with two resources listed and `/dev/mem` refused,
`mapResources` fails with PermissionDenied and leaves the resource list
empty, not as it was. -/
theorem mapResources_refused_counterexample :
    (twoBars.mapResources devMemRefused).1 = .error .PermissionDenied ∧
    (twoBars.mapResources devMemRefused).2.1.resource_ = [] ∧
    (twoBars.mapResources devMemRefused).2.1.resource_ ≠ twoBars.resource_ := by
  decide

/-- C11 (amended): if `/dev/mem` cannot be opened, `mapResources` fails with
PermissionDenied and attempts no mapping: it makes no `mmap` call, uses up no
`mmap` reply and closes no descriptor.  It calls `close()`: after the failed
open its only system calls are one `munmap` for every entry that was mapped on
entry, the mappings left in place are those `close()` leaves, and the resource
list of the Device is empty afterwards.  When no entry was mapped on entry, the
failed open is its only system call and the mappings in place are unchanged. -/
theorem mapResources_permission_denied (dev : PciDevice) (k : Kernel) (hfd : k.devMem = -1) :
    (dev.mapResources k).1 = .error .PermissionDenied ∧
    (dev.mapResources k).2.1.resource_ = [] ∧
    (dev.mapResources k).2.2.trace
      = k.trace ++ [Syscall.openDevMem (-1)] ++ unmapEvents dev.resource_ ∧
    (∀ ev ∈ [Syscall.openDevMem (-1)] ++ unmapEvents dev.resource_,
      ∀ (length : Nat) (fd : Int) (offset : Nat) (result : Option Nat),
        ev ≠ Syscall.mmap length fd offset result) ∧
    (dev.mapResources k).2.2.mmapScript = k.mmapScript ∧
    (dev.mapResources k).2.2.live = liveAfterUnmap k.live dev.resource_ ∧
    ((∀ r ∈ dev.resource_, r.baseAddr = 0) →
      (dev.mapResources k).2.2.trace = k.trace ++ [Syscall.openDevMem (-1)] ∧
      (dev.mapResources k).2.2.live = k.live) := by
  have htrace : (dev.mapResources k).2.2.trace
      = k.trace ++ [Syscall.openDevMem (-1)] ++ unmapEvents dev.resource_ := by
    rw [mapResources_refused dev k hfd]
    simp only [unmapAll_trace, Kernel.openDevMem, hfd]
  have hlive : (dev.mapResources k).2.2.live = liveAfterUnmap k.live dev.resource_ := by
    rw [mapResources_refused dev k hfd]
    simp only [unmapAll_live, Kernel.openDevMem]
  refine ⟨?_, ?_, htrace, ?_, ?_, hlive, fun hnull => ⟨?_, ?_⟩⟩
  · rw [mapResources_refused dev k hfd]
  · rw [mapResources_refused dev k hfd]
  · intro ev hev length fd offset result he
    subst he
    simp [unmapEvents] at hev
  · rw [mapResources_refused dev k hfd]
    exact (unmapAll_fields _ _).1
  · rw [htrace, unmapEvents_null _ hnull, List.append_nil]
  · rw [hlive, liveAfterUnmap_null _ _ hnull]

/-- Witness of `mapResources_permission_denied`: two resources, none mapped,
and `/dev/mem` refused. -/
theorem mapResources_permission_denied_witness :
    (twoBars.mapResources devMemRefused).1 = .error .PermissionDenied ∧
    (twoBars.mapResources devMemRefused).2.2.trace = [Syscall.openDevMem (-1)] ∧
    (twoBars.mapResources devMemRefused).2.2.mmapScript = [some 0x7f0000001000] ∧
    (twoBars.mapResources devMemRefused).2.2.live = [] :=
  have h := mapResources_permission_denied twoBars devMemRefused rfl
  ⟨h.1, (h.2.2.2.2.2.2 (by decide)).1, h.2.2.2.2.1, (h.2.2.2.2.2.2 (by decide)).2⟩

/-! ## The search loop of open -/

theorem searchLoop_sound (vendorID deviceID : Int) (entries : List DirEntry) (e : DirEntry)
    (h : searchLoop vendorID deviceID entries = .ok (some e)) :
    e ∈ entries ∧ e.is_directory = true ∧ getIntegerFromFile e.vendor = .ok vendorID ∧
      getIntegerFromFile e.device = .ok deviceID := by
  induction entries with
  | nil => simp [searchLoop] at h
  | cons x rest ih =>
    unfold searchLoop at h
    split at h
    · obtain ⟨h1, h2⟩ := ih h
      exact ⟨List.mem_cons_of_mem _ h1, h2⟩
    · next hdir =>
      split at h
      · simp at h
      · next a ha =>
        split at h
        · simp at h
        · next b hb =>
          split at h
          · next hm =>
            simp only [Except.ok.injEq, Option.some.injEq] at h
            subst h
            refine ⟨List.mem_cons_self _ _, by simpa using hdir, ?_, ?_⟩
            · rw [ha, hm.1]
            · rw [hb, hm.2]
          · obtain ⟨h1, h2⟩ := ih h
            exact ⟨List.mem_cons_of_mem _ h1, h2⟩

theorem searchLoop_skip (vendorID deviceID : Int) (x : DirEntry) (rest : List DirEntry)
    (hx : x.is_directory = true → ∃ a b : Int, getIntegerFromFile x.vendor = .ok a ∧
      getIntegerFromFile x.device = .ok b ∧ ¬ (a = vendorID ∧ b = deviceID)) :
    searchLoop vendorID deviceID (x :: rest) = searchLoop vendorID deviceID rest := by
  rw [searchLoop]
  split
  · rfl
  · next hdir =>
    obtain ⟨a, b, ha, hb, hne⟩ := hx (by simpa using hdir)
    simp only [ha, hb, if_neg hne]

theorem searchLoop_first (vendorID deviceID : Int) (pre post : List DirEntry) (e : DirEntry)
    (hdir : e.is_directory = true) (hv : getIntegerFromFile e.vendor = .ok vendorID)
    (hd : getIntegerFromFile e.device = .ok deviceID)
    (hpre : ∀ x ∈ pre, x.is_directory = true → ∃ a b : Int,
      getIntegerFromFile x.vendor = .ok a ∧ getIntegerFromFile x.device = .ok b ∧
      ¬ (a = vendorID ∧ b = deviceID)) :
    searchLoop vendorID deviceID (pre ++ e :: post) = .ok (some e) := by
  induction pre with
  | nil =>
    rw [List.nil_append, searchLoop]
    simp [hdir, hv, hd]
  | cons x rest ih =>
    rw [List.cons_append, searchLoop_skip _ _ _ _ (hpre x (List.mem_cons_self _ _))]
    exact ih (fun y hy => hpre y (List.mem_cons_of_mem _ hy))

theorem searchLoop_none (vendorID deviceID : Int) (entries : List DirEntry)
    (h : ∀ x ∈ entries, x.is_directory = true → ∃ a b : Int,
      getIntegerFromFile x.vendor = .ok a ∧ getIntegerFromFile x.device = .ok b ∧
      ¬ (a = vendorID ∧ b = deviceID)) :
    searchLoop vendorID deviceID entries = .ok none := by
  induction entries with
  | nil => rfl
  | cons x rest ih =>
    rw [searchLoop_skip _ _ _ _ (h x (List.mem_cons_self _ _))]
    exact ih (fun y hy => h y (List.mem_cons_of_mem _ hy))

theorem locateDevice_ok (vendorID deviceID : Int) (entries : List DirEntry) (e : DirEntry)
    (h : locateDevice vendorID deviceID (some entries) = .ok e) :
    searchLoop vendorID deviceID entries = .ok (some e) := by
  unfold locateDevice at h
  simp only at h
  split at h
  · simp at h
  · simp at h
  · next x hx =>
    simp only [Except.ok.injEq] at h
    subst h
    exact hx

/-- C12 (counterexample): a caller passing -1 as vendor ID gets the
subdirectory whose `vendor` file cannot be opened; and a `vendor` file whose
first line is not an integer does not read as -1, `std::stoi` throws
`invalid_argument`, which ends the search. -/
theorem locateDevice_sentinel_counterexample :
    noVendorFile.vendor = none ∧
    locateDevice (-1) 0x903f (some [noVendorFile]) = .ok noVendorFile ∧
    getIntegerFromFile (some "Xilinx".toList) = .error .invalid_argument ∧
    locateDevice 0x10ee 0x903f
        (some [{ noVendorFile with vendor := some "Xilinx".toList }, sidewinderDir])
      = .error .invalid_argument := by
  decide

/-- C12 (amended): for every vendor ID and device ID, over a directory listing
whose subdirectories before the first match have metadata files that cannot be
opened or whose first line `std::stoi` converts to an `int`: the search of
`open` returns the first subdirectory, in listing order, whose `vendor` and
`device` files read as (vendorID, deviceID), entries that are not directories
being passed over, and fails with DeviceNotFound when the files of every
subdirectory so read and none matches.  A metadata file that cannot be opened
reads as -1 and raises no failure; the subdirectory returned always has files
that read as (vendorID, deviceID), so one with an unopenable `vendor` file is
selected only for vendorID = -1, and one with an unopenable `device` file only
for deviceID = -1. -/
theorem locateDevice_first_match (vendorID deviceID : Int) :
    (∀ (pre post : List DirEntry) (e : DirEntry), e.is_directory = true →
      getIntegerFromFile e.vendor = .ok vendorID →
      getIntegerFromFile e.device = .ok deviceID →
      (∀ x ∈ pre, x.is_directory = true → ∃ a b : Int,
        getIntegerFromFile x.vendor = .ok a ∧ getIntegerFromFile x.device = .ok b ∧
        ¬ (a = vendorID ∧ b = deviceID)) →
      locateDevice vendorID deviceID (some (pre ++ e :: post)) = .ok e) ∧
    (∀ entries : List DirEntry,
      (∀ x ∈ entries, x.is_directory = true → ∃ a b : Int,
        getIntegerFromFile x.vendor = .ok a ∧ getIntegerFromFile x.device = .ok b ∧
        ¬ (a = vendorID ∧ b = deviceID)) →
      locateDevice vendorID deviceID (some entries)
        = .error (.runtime_error (.DeviceNotFound vendorID deviceID))) ∧
    getIntegerFromFile none = .ok (-1) ∧
    (∀ (entries : List DirEntry) (e : DirEntry),
      locateDevice vendorID deviceID (some entries) = .ok e →
      e ∈ entries ∧ e.is_directory = true ∧
      getIntegerFromFile e.vendor = .ok vendorID ∧
      getIntegerFromFile e.device = .ok deviceID ∧
      (e.vendor = none → vendorID = -1) ∧ (e.device = none → deviceID = -1)) ∧
    locateDevice 0x10ee 0x903f (some [otherDir, noVendorFile, sidewinderDir])
      = .ok sidewinderDir ∧
    locateDevice 0x10ee 0x903f (some [otherDir, noVendorFile])
      = .error (.runtime_error (.DeviceNotFound 0x10ee 0x903f)) := by
  refine ⟨fun pre post e hdir hv hd hpre => ?_, fun entries h => ?_, rfl,
    fun entries e h => ?_, by decide, by decide⟩
  · simp only [locateDevice, searchLoop_first vendorID deviceID pre post e hdir hv hd hpre]
  · simp only [locateDevice, searchLoop_none vendorID deviceID entries h]
  · obtain ⟨hmem, hdir, hv, hd⟩ :=
      searchLoop_sound vendorID deviceID entries e (locateDevice_ok _ _ _ _ h)
    refine ⟨hmem, hdir, hv, hd, fun hn => ?_, fun hn => ?_⟩
    · rw [hn] at hv
      simp only [getIntegerFromFile, Except.ok.injEq] at hv
      exact hv.symm
    · rw [hn] at hd
      simp only [getIntegerFromFile, Except.ok.injEq] at hd
      exact hd.symm

/-! ## The lifecycle of a Device -/

theorem mappedRegions_append (xs ys : List resource_t) :
    mappedRegions (xs ++ ys) = mappedRegions xs ++ mappedRegions ys := by
  simp [mappedRegions, List.filter_append]

theorem mappedRegions_null (rs : List resource_t) (h : ∀ r ∈ rs, r.baseAddr = 0) :
    mappedRegions rs = [] := by
  unfold mappedRegions
  rw [filter_null rs h]
  rfl

theorem mappedRegions_singleton (r : resource_t) (h : r.baseAddr ≠ 0) :
    mappedRegions [r] = [{ addr := r.baseAddr, length := r.size }] := by
  simp [mappedRegions, List.filter_cons, h]

theorem liveAfterUnmap_eq (live : List Mapping) (rs : List resource_t) :
    liveAfterUnmap live rs = (mappedRegions rs).foldl (fun l m => l.erase m) live := by
  unfold liveAfterUnmap mappedRegions
  rw [List.foldl_map]

theorem unmapEvents_eq (rs : List resource_t) :
    unmapEvents rs = (mappedRegions rs).map (fun m => Syscall.munmap m.addr m.length) := by
  unfold unmapEvents mappedRegions
  rw [List.map_map]
  rfl

theorem liveAfterUnmap_perm (live base : List Mapping) (rs : List resource_t)
    (h : live.Perm (base ++ mappedRegions rs)) : (liveAfterUnmap live rs).Perm base := by
  rw [liveAfterUnmap_eq]
  exact erase_fold_perm _ _ _ h

theorem mapLoop_script (fd : Int) :
    ∀ (todo done : List resource_t) (k : Kernel),
      (mapLoop fd done todo k).2.2.mmapScript <:+ k.mmapScript := by
  intro todo
  induction todo with
  | nil => intro done k; exact List.suffix_refl _
  | cons bar rest ih =>
    intro done k
    rw [mapLoop]
    cases hs : k.mmapScript with
    | nil =>
      simp only [Kernel.mmap, hs, PciDevice.close]
      rw [(unmapAll_fields _ _).1]
    | cons reply script =>
      cases reply with
      | none =>
        simp only [Kernel.mmap, hs, PciDevice.close]
        rw [(unmapAll_fields _ _).1]
        exact List.suffix_cons _ _
      | some p =>
        simp only [Kernel.mmap, hs]
        exact (ih _ _).trans (List.suffix_cons _ _)

theorem mapLoop_consistent (fd : Int) (base : List Mapping) :
    ∀ (todo done : List resource_t) (k : Kernel),
      (∀ r ∈ todo, r.baseAddr = 0) → (∀ r ∈ done, r.baseAddr ≠ 0) →
      some 0 ∉ k.mmapScript → k.live.Perm (base ++ mappedRegions done) →
      ((mapLoop fd done todo k).1 = .ok () →
        (mapLoop fd done todo k).2.2.live.Perm
            (base ++ mappedRegions (mapLoop fd done todo k).2.1.resource_) ∧
        ∀ r ∈ (mapLoop fd done todo k).2.1.resource_, r.baseAddr ≠ 0) ∧
      (∀ e, (mapLoop fd done todo k).1 = .error e →
        (mapLoop fd done todo k).2.1.resource_ = [] ∧
        (mapLoop fd done todo k).2.2.live.Perm base) := by
  intro todo
  induction todo with
  | nil =>
    intro done k _ hdone _ hlive
    simp only [mapLoop]
    exact ⟨fun _ => ⟨hlive, hdone⟩, fun e he => by simp at he⟩
  | cons bar rest ih =>
    intro done k htodo hdone hsane hlive
    have hnull : mappedRegions (done ++ bar :: rest) = mappedRegions done := by
      rw [mappedRegions_append, mappedRegions_null _ htodo, List.append_nil]
    have hfail : ∀ k1 : Kernel, k1.live = k.live →
        (liveAfterUnmap k1.live (done ++ bar :: rest)).Perm base := by
      intro k1 h1
      apply liveAfterUnmap_perm
      rw [h1, hnull]
      exact hlive
    rw [mapLoop]
    cases hs : k.mmapScript with
    | nil =>
      simp only [Kernel.mmap, hs, PciDevice.close, unmapAll_live]
      exact ⟨fun h => by simp at h, fun e _ => ⟨trivial, hfail _ rfl⟩⟩
    | cons reply script =>
      cases reply with
      | none =>
        simp only [Kernel.mmap, hs, PciDevice.close, unmapAll_live]
        exact ⟨fun h => by simp at h, fun e _ => ⟨trivial, hfail _ rfl⟩⟩
      | some p =>
        have hp : p ≠ 0 := by
          rintro rfl
          exact hsane (by rw [hs]; exact List.mem_cons_self _ _)
        simp only [Kernel.mmap, hs]
        apply ih
        · exact fun r hr => htodo r (List.mem_cons_of_mem _ hr)
        · intro r hr
          rcases List.mem_append.mp hr with h | h
          · exact hdone r h
          · simp only [List.mem_singleton] at h
            subst h
            exact hp
        · exact fun h => hsane (by rw [hs]; exact List.mem_cons_of_mem _ h)
        · rw [mappedRegions_append, mappedRegions_singleton _ hp, ← List.append_assoc]
          exact hlive.append_right _

theorem resourceLoop_null :
    ∀ (lines : List (List Char)) (acc result : List resource_t),
      (∀ r ∈ acc, r.baseAddr = 0) → resourceLoop lines acc = some result →
      ∀ r ∈ result, r.baseAddr = 0 := by
  intro lines
  induction lines with
  | nil =>
    intro acc result hacc h
    simp only [resourceLoop, Option.some.injEq] at h
    exact h ▸ hacc
  | cons line more ih =>
    intro acc result hacc h
    unfold resourceLoop at h
    simp only at h
    split at h
    · simp at h
    · split at h
      · exact ih _ _ hacc h
      · refine ih _ _ ?_ h
        intro r hr
        rcases List.mem_append.mp hr with h1 | h1
        · exact hacc r h1
        · simp only [List.mem_singleton] at h1
          subst h1
          rfl

theorem getResourceList_null (file : Option (List (List Char))) (result : List resource_t)
    (h : PciDevice.getResourceList file = some (.ok result)) : ∀ r ∈ result, r.baseAddr = 0 := by
  unfold PciDevice.getResourceList at h
  split at h
  · simp at h
  · split at h
    · simp at h
    · next res hres =>
      split at h
      · simp at h
      · simp only [Option.some.injEq, Except.ok.injEq] at h
        subst h
        exact resourceLoop_null _ [] _ (by simp) hres

theorem mapResources_eq (dev : PciDevice) (k : Kernel) :
    dev.mapResources k
      = if k.devMem < 0 then
          (.error .PermissionDenied, { resource_ := [] },
            FileDes.destroy k.devMem (unmapAll k.openDevMem.2 dev.resource_))
        else
          ((mapLoop k.devMem [] dev.resource_ k.openDevMem.2).1,
           (mapLoop k.devMem [] dev.resource_ k.openDevMem.2).2.1,
           FileDes.destroy k.devMem (mapLoop k.devMem [] dev.resource_ k.openDevMem.2).2.2) := by
  rfl

theorem mapLoop_regions (fd : Int) :
    ∀ (todo done : List resource_t) (k : Kernel), (mapLoop fd done todo k).1 = .ok () →
      (mapLoop fd done todo k).2.1.resource_.map (fun r => (r.size, r.physAddr))
        = (done ++ todo).map (fun r => (r.size, r.physAddr)) := by
  intro todo
  induction todo with
  | nil => intro done k _; simp [mapLoop]
  | cons bar rest ih =>
    intro done k
    rw [mapLoop]
    cases hs : k.mmapScript with
    | nil => simp [Kernel.mmap, hs]
    | cons reply script =>
      cases reply with
      | none => simp [Kernel.mmap, hs]
      | some p =>
        simp only [Kernel.mmap, hs]
        intro h
        rw [ih _ _ h]
        simp

theorem mapResources_regions (dev : PciDevice) (k : Kernel)
    (h : (dev.mapResources k).1 = .ok ()) :
    (dev.mapResources k).2.1.resource_.map (fun r => (r.size, r.physAddr))
      = dev.resource_.map (fun r => (r.size, r.physAddr)) := by
  rw [mapResources_eq] at h ⊢
  by_cases hfd : k.devMem < 0
  · simp [if_pos hfd] at h
  · simp only [if_neg hfd] at h ⊢
    simpa using mapLoop_regions k.devMem dev.resource_ [] k.openDevMem.2 h

theorem destroy_fields (fd : Int) (k : Kernel) :
    (FileDes.destroy fd k).live = k.live ∧ (FileDes.destroy fd k).mmapScript = k.mmapScript := by
  unfold FileDes.destroy
  split <;> exact ⟨rfl, rfl⟩

theorem mapResources_consistent (dev : PciDevice) (k : Kernel) (base : List Mapping)
    (hnull : ∀ r ∈ dev.resource_, r.baseAddr = 0) (hsane : some 0 ∉ k.mmapScript)
    (hlive : k.live.Perm base) :
    ((dev.mapResources k).1 = .ok () →
      (dev.mapResources k).2.2.live.Perm (base ++ mappedRegions (dev.mapResources k).2.1.resource_) ∧
      ∀ r ∈ (dev.mapResources k).2.1.resource_, r.baseAddr ≠ 0) ∧
    (∀ e, (dev.mapResources k).1 = .error e →
      (dev.mapResources k).2.1.resource_ = [] ∧ (dev.mapResources k).2.2.live.Perm base) ∧
    (dev.mapResources k).2.2.mmapScript <:+ k.mmapScript := by
  rw [mapResources_eq]
  by_cases hfd : k.devMem < 0
  · simp only [if_pos hfd, (destroy_fields _ _).1, (destroy_fields _ _).2, unmapAll_live,
      (unmapAll_fields _ _).1]
    refine ⟨fun h => by simp at h, fun e _ => ⟨trivial, ?_⟩, List.suffix_refl _⟩
    rw [liveAfterUnmap_null _ _ hnull]
    exact hlive
  · simp only [if_neg hfd, (destroy_fields _ _).1, (destroy_fields _ _).2]
    have h := mapLoop_consistent k.devMem base dev.resource_ [] k.openDevMem.2 hnull
      (by simp) hsane (by simpa [mappedRegions] using hlive)
    exact ⟨h.1, h.2, mapLoop_script k.devMem dev.resource_ [] k.openDevMem.2⟩

theorem close_consistent (dev : PciDevice) (k : Kernel) (base : List Mapping)
    (hlive : k.live.Perm (base ++ mappedRegions dev.resource_)) :
    (dev.close k).1.resource_ = [] ∧ (dev.close k).2.live.Perm base ∧
    (dev.close k).2.mmapScript = k.mmapScript ∧
    (dev.close k).2.trace
      = k.trace ++ (mappedRegions dev.resource_).map (fun m => Syscall.munmap m.addr m.length) := by
  refine ⟨rfl, ?_, (unmapAll_fields _ _).1, ?_⟩
  · simp only [PciDevice.close, unmapAll_live]
    exact liveAfterUnmap_perm _ _ _ hlive
  · simp only [PciDevice.close, unmapAll_trace, unmapEvents_eq]

theorem open_consistent (self : PciDevice) (k : Kernel) (base : List Mapping)
    (vendorID deviceID : Int) (listing : Option (List DirEntry))
    (outcome : Except Thrown Unit) (dev2 : PciDevice) (k2 : Kernel)
    (hsane : some 0 ∉ k.mmapScript) (hlive : k.live.Perm (base ++ mappedRegions self.resource_))
    (hopen : self.open k vendorID deviceID listing = some (outcome, dev2, k2)) :
    (∀ e, outcome = .error e → dev2.resource_ = [] ∧ k2.live.Perm base) ∧
    (outcome = .ok () →
      k2.live.Perm (base ++ mappedRegions dev2.resource_) ∧ dev2.resource_ ≠ [] ∧
      ∀ r ∈ dev2.resource_, r.baseAddr ≠ 0) ∧
    k2.mmapScript <:+ k.mmapScript := by
  obtain ⟨c1, c2, c3, -⟩ := close_consistent self k base hlive
  unfold PciDevice.open at hopen
  simp only at hopen
  split at hopen
  · simp only [Option.some.injEq, Prod.mk.injEq] at hopen
    obtain ⟨h1, h2, h3⟩ := hopen
    subst h1 h2 h3
    exact ⟨fun e _ => ⟨c1, c2⟩, fun h => by simp at h, by rw [c3]⟩
  · split at hopen
    · simp at hopen
    · simp only [Option.some.injEq, Prod.mk.injEq] at hopen
      obtain ⟨h1, h2, h3⟩ := hopen
      subst h1 h2 h3
      exact ⟨fun e _ => ⟨c1, c2⟩, fun h => by simp at h, by rw [c3]⟩
    · next entry resources hres =>
      have hnull := getResourceList_null _ _ hres
      have hne : resources ≠ [] := by
        intro he
        unfold PciDevice.getResourceList at hres
        split at hres
        · simp at hres
        · split at hres
          · simp at hres
          · split at hres
            · simp at hres
            · next hnot =>
              simp only [Option.some.injEq, Except.ok.injEq] at hres
              rw [hres, he] at hnot
              simp at hnot
      have hm := mapResources_consistent { resource_ := resources } (self.close k).2 base
        hnull (by rw [c3]; exact hsane) c2
      rw [c3] at hm
      split at hopen
      · next e d3 k3 hrun =>
        simp only [Option.some.injEq, Prod.mk.injEq] at hopen
        obtain ⟨h1, h2, h3⟩ := hopen
        subst h1 h2 h3
        rw [hrun] at hm
        exact ⟨fun e2 _ => hm.2.1 e rfl, fun h => by simp at h, hm.2.2⟩
      · next u d3 k3 hrun =>
        simp only [Option.some.injEq, Prod.mk.injEq] at hopen
        obtain ⟨h1, h2, h3⟩ := hopen
        subst h1 h2 h3
        rw [hrun] at hm
        refine ⟨fun e h => by simp at h, fun _ => ⟨(hm.1 rfl).1, ?_, (hm.1 rfl).2⟩, hm.2.2⟩
        intro he
        have hreg := mapResources_regions { resource_ := resources } (self.close k).2
          (by rw [hrun])
        rw [hrun] at hreg
        simp only [he, List.map_nil] at hreg
        exact hne (List.map_eq_nil_iff.mp hreg.symm)

theorem unmapAll_null (k : Kernel) (rs : List resource_t) (h : ∀ r ∈ rs, r.baseAddr = 0) :
    unmapAll k rs = k := by
  induction rs with
  | nil => rfl
  | cons r rest ih =>
    unfold unmapAll
    rw [if_neg (by simp [h r (List.mem_cons_self _ _)])]
    exact ih (fun x hx => h x (List.mem_cons_of_mem _ hx))

/-- C13: let the mappings in place be, in some order, `base` (those that are
not the Device's) and the regions the Device holds mapped, and let `mmap`
never return the null address.  After `close()` the Device has an empty
resource list and the mappings in place are `base`: no region of the Device
is left mapped, the system calls of `close()` being one `munmap` for every
region the Device held, in order.  Closing again changes nothing, the Device
nor the kernel; `close()` on a Device with nothing mapped makes no system call
and leaves the kernel as it is, and leaves a Device whose list is empty as it
is.  After every `open()` that fails, whatever it throws (device not found,
resource file unopenable or without mappable resources, `/dev/mem` refused, a
mapping failure, or an exception of the library), the Device has an empty
resource list and the mappings in place are `base`: the regions mapped by an
earlier successful `open()` are unmapped too.  After an `open()` that
succeeds the resource list is not empty, every entry is mapped, and the
mappings in place are `base` and the regions of the Device, so the same holds
of the next call. -/
theorem device_lifecycle (self : PciDevice) (k : Kernel) (base : List Mapping)
    (hsane : some 0 ∉ k.mmapScript)
    (hlive : k.live.Perm (base ++ mappedRegions self.resource_)) :
    ((self.close k).1.resource_ = [] ∧ (self.close k).2.live.Perm base ∧
      (self.close k).2.trace
        = k.trace
            ++ (mappedRegions self.resource_).map (fun m => Syscall.munmap m.addr m.length)) ∧
    (self.close k).1.close (self.close k).2 = self.close k ∧
    ((∀ r ∈ self.resource_, r.baseAddr = 0) → (self.close k).2 = k) ∧
    (self.resource_ = [] → self.close k = (self, k)) ∧
    (∀ (vendorID deviceID : Int) (listing : Option (List DirEntry))
        (outcome : Except Thrown Unit) (dev2 : PciDevice) (k2 : Kernel),
      self.open k vendorID deviceID listing = some (outcome, dev2, k2) →
      (∀ e, outcome = .error e → dev2.resource_ = [] ∧ k2.live.Perm base) ∧
      (outcome = .ok () →
        k2.live.Perm (base ++ mappedRegions dev2.resource_) ∧ dev2.resource_ ≠ [] ∧
        ∀ r ∈ dev2.resource_, r.baseAddr ≠ 0) ∧
      some 0 ∉ k2.mmapScript) := by
  obtain ⟨c1, c2, -, c4⟩ := close_consistent self k base hlive
  refine ⟨⟨c1, c2, c4⟩, rfl, fun hnull => ?_, fun hnil => ?_, ?_⟩
  · exact unmapAll_null k _ hnull
  · obtain ⟨rs⟩ := self
    simp only at hnil
    subst hnil
    rfl
  · intro vendorID deviceID listing outcome dev2 k2 hopen
    obtain ⟨h1, h2, h3⟩ := open_consistent self k base vendorID deviceID listing outcome dev2 k2
      hsane hlive hopen
    exact ⟨h1, h2, fun hmem => hsane (h3.subset hmem)⟩

/-- Witness of `device_lifecycle`: a Device holding one region, the only
mapping in place.  `close()` unmaps it once and leaves nothing mapped; an
`open()` that finds the device but is refused `/dev/mem` leaves the list empty
and nothing mapped. -/
theorem device_lifecycle_witness :
    (oneBarMapped.close oneRegionLive).1.resource_ = [] ∧
    (oneBarMapped.close oneRegionLive).2.live = [] ∧
    (oneBarMapped.close oneRegionLive).2.trace = [Syscall.munmap 0x7f0000001000 0x100] ∧
    (oneBarMapped.open oneRegionLive 0x10ee 0x903f (some [otherDir, sidewinderDir])).map
        (fun out => (out.1, out.2.1.resource_, out.2.2.live))
      = some (.error (.runtime_error .PermissionDenied), [], []) :=
  have h := device_lifecycle oneBarMapped oneRegionLive [] (by decide) (List.Perm.refl _)
  ⟨h.1.1, List.Perm.eq_nil h.1.2.1, h.1.2.2, by decide⟩

end Sidewinder
